import Mathlib

/-!
Verification of the CodePlanner job pipeline: a shallow embedding in Lean 4 of the
vector store (`packages/engine/src/vector-store/redis-store.ts`), the rate limiter
(`packages/engine/src/utils/rate-limiter.ts`), the retry/backoff layer of the plan
generator, the worker's job dispatch (`CodePlannerWorker`), and the gateway's result
translation (`packages/gateway/src/server.ts`).

Modelling conventions: JavaScript numbers appearing in embeddings are modelled as
exact rationals; the real-valued reading of a floating-point expression involving
`Math.sqrt` is given by a separate denotation into `ℝ`.  Redis is modelled as a
fault-free key/value state holding hashes and sets, keyed by the exact key strings
the source builds.  Timestamps are natural-number epoch milliseconds.
-/

namespace CodePlanner

/-- Lookup in an association list keyed by strings (models a Redis keyspace). -/
def alookup {α : Type} : List (String × α) → String → Option α
  | [], _ => none
  | (k, v) :: rest, key => if k = key then some v else alookup rest key

/-- Remove every binding of a key from an association list (models `DEL key`). -/
def aerase {α : Type} : List (String × α) → String → List (String × α)
  | [], _ => []
  | (k, v) :: rest, key => if k = key then aerase rest key else (k, v) :: aerase rest key

/-- Set the binding of a key in an association list, replacing an existing one. -/
def aset {α : Type} : List (String × α) → String → α → List (String × α)
  | [], key, v => [(key, v)]
  | (k, w) :: rest, key, v => if k = key then (key, v) :: rest else (k, w) :: aset rest key v

/-- Hash fields written for one stored chunk by `storeChunk`/`storeChunks`
(redis-store.ts, `hSet` call): id, content, type, filePath, name (with `''` for a
missing name), the embedding, and `createdAt`. -/
structure ChunkHash where
  id : String
  content : String
  type : String
  filePath : String
  name : String
  embedding : List ℚ
  createdAt : String
deriving Repr, DecidableEq

/-- Fault-free Redis state: a keyspace of sets and a keyspace of chunk hashes.
The source only ever uses a key as a set (`sAdd`/`sMembers`) or as a hash
(`hSet`/`hGetAll`), and `del` removes a key of either kind. -/
structure RedisState where
  sets : List (String × List String)
  hashes : List (String × ChunkHash)
deriving Repr, DecidableEq

/-- Members of a set key; a missing key reads as the empty set (`SMEMBERS`). -/
def RedisState.sMembers (st : RedisState) (key : String) : List String :=
  (alookup st.sets key).getD []

/-- Add a member to a set key (`SADD`): no-op when already present. -/
def RedisState.sAdd (st : RedisState) (key member : String) : RedisState :=
  let cur := st.sMembers key
  if member ∈ cur then st
  else { st with sets := aset st.sets key (cur ++ [member]) }

/-- Read the whole hash at a key (`HGETALL`); `none` models the empty reply
for a missing key, which makes `data.embedding` falsy in the source. -/
def RedisState.hGetAll (st : RedisState) (key : String) : Option ChunkHash :=
  alookup st.hashes key

/-- Write the whole hash at a key (`HSET` with every field, as the source does). -/
def RedisState.hSetChunk (st : RedisState) (key : String) (h : ChunkHash) : RedisState :=
  { st with hashes := aset st.hashes key h }

/-- Delete a key of either kind (`DEL`). -/
def RedisState.del (st : RedisState) (key : String) : RedisState :=
  { sets := aerase st.sets key, hashes := aerase st.hashes key }

/-- Vector-store configuration after the constructor's defaulting merge:
`keyPrefix` defaults to `'codeplanner:vectors'` and `maxResults` to `20`. -/
structure VSConfig where
  keyPfx : String
  maxResults : ℕ
deriving Repr, DecidableEq

/-- Configuration produced by `new RedisVectorStore({redisUrl})`, as the worker
constructs it: both defaults apply. -/
def defaultVSConfig : VSConfig :=
  { keyPfx := "codeplanner:vectors", maxResults := 20 }

/-- Key for one chunk: `` `${keyPrefix}:${userId}:${projectId}:${chunkId}` ``. -/
def getChunkKey (cfg : VSConfig) (userId projectId chunkId : String) : String :=
  cfg.keyPfx ++ ":" ++ userId ++ ":" ++ projectId ++ ":" ++ chunkId

/-- Key for a project's index set: `` `${keyPrefix}:index:${userId}:${projectId}` ``. -/
def getProjectIndexKey (cfg : VSConfig) (userId projectId : String) : String :=
  cfg.keyPfx ++ ":index:" ++ userId ++ ":" ++ projectId

/-- Code chunk as passed to the store; `embedding` is optional, exactly as in the
`CodeChunk` shared type. -/
structure CodeChunk where
  id : String
  content : String
  type : String
  filePath : String
  name : Option String
  embedding : Option (List ℚ)
deriving Repr, DecidableEq

/-- Hash written for a chunk carrying embedding `emb` at time `now`
(`Date.now().toString()`); `chunk.name || ''` reads a missing name as `''`. -/
def chunkHashOf (chunk : CodeChunk) (emb : List ℚ) (now : ℕ) : ChunkHash :=
  { id := chunk.id, content := chunk.content, type := chunk.type,
    filePath := chunk.filePath, name := chunk.name.getD "", embedding := emb,
    createdAt := toString now }

/-- Model of `RedisVectorStore.storeChunk`: a chunk without an embedding is
rejected with an error; otherwise the hash is written at the chunk key and the id
is added to the project index set. -/
def storeChunk (cfg : VSConfig) (userId projectId : String) (chunk : CodeChunk)
    (now : ℕ) (st : RedisState) : Except String RedisState :=
  match chunk.embedding with
  | none => Except.error ("Code chunk must have an embedding to store")
  | some emb =>
    let st1 := st.hSetChunk (getChunkKey cfg userId projectId chunk.id) (chunkHashOf chunk emb now)
    Except.ok (st1.sAdd (getProjectIndexKey cfg userId projectId) chunk.id)

/-- One iteration of the `storeChunks` pipeline loop: a chunk without an
embedding is skipped with only a console warning; otherwise its hash is queued
for writing and its id for registration. -/
def storeChunkStep (cfg : VSConfig) (userId projectId : String) (now : ℕ)
    (s : RedisState) (chunk : CodeChunk) : RedisState :=
  match chunk.embedding with
  | none => s
  | some emb =>
    let s1 := s.hSetChunk (getChunkKey cfg userId projectId chunk.id) (chunkHashOf chunk emb now)
    s1.sAdd (getProjectIndexKey cfg userId projectId) chunk.id

/-- Model of `RedisVectorStore.storeChunks`: every chunk without an embedding is
skipped (no error); chunks with embeddings are written and registered through one
pipeline, modelled as a sequential fold. -/
def storeChunks (cfg : VSConfig) (userId projectId : String) (chunks : List CodeChunk)
    (now : ℕ) (st : RedisState) : RedisState :=
  chunks.foldl (storeChunkStep cfg userId projectId now) st

/-- Dot product `a.reduce((sum, val, i) => sum + val * b[i], 0)`; only evaluated on
equal-length vectors (`cosineSimilarity` throws first otherwise), where it agrees
with the truncating `zipWith`. -/
def dotProduct (a b : List ℚ) : ℚ :=
  (List.zipWith (fun x y => x * y) a b).sum

/-- Sum of squares of a vector; `Math.sqrt` of this is the magnitude the source
computes. -/
def sqMagnitude (a : List ℚ) : ℚ :=
  (a.map (fun x => x * x)).sum

/-- Exact representation of the float similarity computed for a query/chunk pair:
the two vectors it was computed from.  The number the source computes from them,
`dotProduct / (Math.sqrt(sqA) * Math.sqrt(sqB))`, is recovered by `SimScore.val`. -/
structure SimScore where
  qa : List ℚ
  qb : List ℚ
deriving Repr, DecidableEq

/-- Numerator of the similarity: the dot product of the two vectors. -/
def SimScore.dot (s : SimScore) : ℚ := dotProduct s.qa s.qb

/-- Squared magnitude of the first vector (`magnitudeA` is its square root). -/
def SimScore.sqA (s : SimScore) : ℚ := sqMagnitude s.qa

/-- Squared magnitude of the second vector (`magnitudeB` is its square root). -/
def SimScore.sqB (s : SimScore) : ℚ := sqMagnitude s.qb

/-- Real-number reading of the computed similarity
`dotProduct / (magnitudeA * magnitudeB)` with exact square roots. -/
noncomputable def SimScore.val (s : SimScore) : ℝ :=
  (s.dot : ℝ) / (Real.sqrt (s.sqA : ℝ) * Real.sqrt (s.sqB : ℝ))

/-- Reading of the similarity as the JavaScript float it is: when either magnitude
is zero the division by zero produces `NaN` or `±Infinity`, which is no real
number at all — modelled as `none`. -/
noncomputable def SimScore.valJS (s : SimScore) : Option ℝ :=
  if s.sqA * s.sqB = 0 then none else some s.val

/-- Model of `RedisVectorStore.cosineSimilarity`: dimensions must agree (else the
method throws), and the result represents `dot(a,b) / (|a|·|b|)`. -/
def cosineSimilarity (a b : List ℚ) : Except String SimScore :=
  if a.length ≠ b.length then Except.error ("Embeddings must have the same dimension")
  else Except.ok { qa := a, qb := b }

/-- Decidable reflection of `val s ≤ val t` for scores with positive squared
magnitudes, written with rational cross-multiplications so that the similarity
comparator of the source's sort is executable. -/
def SimScore.leB (s t : SimScore) : Bool :=
  if s.dot ≤ 0 then
    if 0 ≤ t.dot then true
    else decide (t.dot * t.dot * (s.sqA * s.sqB) ≤ s.dot * s.dot * (t.sqA * t.sqB))
  else
    if t.dot ≤ 0 then false
    else decide (s.dot * s.dot * (t.sqA * t.sqB) ≤ t.dot * t.dot * (s.sqA * s.sqB))

/-- One entry of the `searchSimilar` result: the stored chunk annotated with its
similarity score (`{...chunkFields, similarity}` in the source). -/
structure SearchResult where
  id : String
  content : String
  type : String
  filePath : String
  name : Option String
  embedding : List ℚ
  score : SimScore

/-- Search result built from a stored hash (`name: data.name || undefined`). -/
def resultOfHash (h : ChunkHash) (s : SimScore) : SearchResult :=
  { id := h.id, content := h.content, type := h.type, filePath := h.filePath,
    name := if h.name = "" then none else some h.name, embedding := h.embedding,
    score := s }

/-- Scoring loop of `searchSimilar`: walk the project's chunk ids, skip ids whose
hash is gone (empty `hGetAll` reply makes `data.embedding` falsy), compute the
similarity for the rest, and propagate the dimension-mismatch error. -/
def collectScored (cfg : VSConfig) (userId projectId : String) (q : List ℚ)
    (st : RedisState) : List String → Except String (List SearchResult)
  | [] => Except.ok []
  | cid :: rest =>
    match st.hGetAll (getChunkKey cfg userId projectId cid) with
    | none => collectScored cfg userId projectId q st rest
    | some h =>
      match cosineSimilarity q h.embedding with
      | Except.error e => Except.error e
      | Except.ok s =>
        match collectScored cfg userId projectId q st rest with
        | Except.error e => Except.error e
        | Except.ok l => Except.ok (resultOfHash h s :: l)

/-- Stable insertion of `x` into a descending list: `x` goes before the first
element it beats strictly, after elements it ties with. -/
def insertDesc {α : Type} (r : α → α → Bool) (x : α) : List α → List α
  | [] => [x]
  | y :: ys => if r x y && !(r y x) then x :: y :: ys else y :: insertDesc r x ys

/-- Stable insertion sort by the comparator `r` (`r x y` ≡ "x may come before y").
ECMAScript's `Array.prototype.sort` with a consistent comparator produces exactly
the stable sorted permutation, so any stable sorting algorithm models it. -/
def sortDesc {α : Type} (r : α → α → Bool) : List α → List α
  | [] => []
  | x :: xs => insertDesc r x (sortDesc r xs)

/-- Comparator of `searchSimilar`'s sort `(a, b) => b.similarity - a.similarity`:
`x` may precede `y` when `y`'s score is at most `x`'s. -/
def resGE (x y : SearchResult) : Bool :=
  SimScore.leB y.score x.score

/-- Model of `RedisVectorStore.searchSimilar`: read the project index, return `[]`
for an empty project, score every surviving chunk, sort by descending similarity
and keep the first `Math.min(limit, config.maxResults)` entries. -/
def searchSimilar (cfg : VSConfig) (userId projectId : String) (q : List ℚ)
    (limit : ℕ) (st : RedisState) : Except String (List SearchResult) :=
  let chunkIds := st.sMembers (getProjectIndexKey cfg userId projectId)
  if chunkIds.isEmpty then Except.ok []
  else
    match collectScored cfg userId projectId q st chunkIds with
    | Except.error e => Except.error e
    | Except.ok chunks =>
      Except.ok ((sortDesc resGE chunks).take (Nat.min limit cfg.maxResults))

/-- Model of `RedisVectorStore.clearProject`: read the index set; if it is empty
return at once (idempotence); otherwise delete every listed chunk key and then
the index key itself. -/
def clearProject (cfg : VSConfig) (userId projectId : String) (st : RedisState) : RedisState :=
  let indexKey := getProjectIndexKey cfg userId projectId
  let chunkIds := st.sMembers indexKey
  if chunkIds.isEmpty then st
  else
    let st1 := chunkIds.foldl (fun s cid => s.del (getChunkKey cfg userId projectId cid)) st
    st1.del indexKey

/-- Statistics returned by `getStats`. -/
structure StoreStats where
  totalChunks : ℕ
  totalSize : ℕ
  chunkTypes : List (String × ℕ)
deriving Repr, DecidableEq

/-- Increment of `chunkTypes[data.type] = (chunkTypes[data.type] || 0) + 1`. -/
def bumpType (m : List (String × ℕ)) (t : String) : List (String × ℕ) :=
  match alookup m t with
  | none => m ++ [(t, 1)]
  | some n => aset m t (n + 1)

/-- Model of `RedisVectorStore.getStats`: `totalChunks` is the size of the index
set; size and per-type counts accumulate over hashes whose `content` is truthy
(the empty string is falsy in JavaScript). -/
def getStats (cfg : VSConfig) (userId projectId : String) (st : RedisState) : StoreStats :=
  let chunkIds := st.sMembers (getProjectIndexKey cfg userId projectId)
  chunkIds.foldl (fun acc cid =>
    match st.hGetAll (getChunkKey cfg userId projectId cid) with
    | none => acc
    | some h =>
      if h.content = "" then acc
      else { acc with totalSize := acc.totalSize + h.content.length,
                      chunkTypes := bumpType acc.chunkTypes h.type })
    { totalChunks := chunkIds.length, totalSize := 0, chunkTypes := [] }

/-! Rate limiter (`packages/engine/src/utils/rate-limiter.ts`). -/

/-- Options accepted by `getRateLimiter` / the `QueuedRateLimiter` constructor. -/
structure RLOptions where
  requestsPerMinute : Option ℕ := none
  name : Option String := none
deriving Repr, DecidableEq

/-- Observable configuration fixed by the `QueuedRateLimiter` constructor. -/
structure LimiterConfig where
  requestsPerMinute : ℕ
  intervalMs : ℕ
  name : String
deriving Repr, DecidableEq

/-- Constructor of `QueuedRateLimiter`: `requestsPerMinute` is
`Math.max(1, options?.requestsPerMinute ?? (process.env.RPM ? Number(process.env.RPM) : 20))`
(`envRPM` models the optional `RPM` environment variable), and
`intervalMs = Math.floor(60000 / requestsPerMinute)`. -/
def mkLimiter (envRPM : Option ℕ) (options : Option RLOptions) : LimiterConfig :=
  let rpm := max 1 ((options.bind (fun o => o.requestsPerMinute)).getD (envRPM.getD 20))
  { requestsPerMinute := rpm, intervalMs := 60000 / rpm,
    name := (options.bind (fun o => o.name)).getD "provider-rate-limiter" }

/-- Module-level singleton: one call of `getRateLimiter` returns the existing
instance when present, otherwise constructs it from the given options. -/
def getRateLimiterCall (envRPM : Option ℕ) (singleton : Option LimiterConfig)
    (options : Option RLOptions) : LimiterConfig × Option LimiterConfig :=
  match singleton with
  | some l => (l, some l)
  | none =>
    let l := mkLimiter envRPM options
    (l, some l)

/-- Sequence of `getRateLimiter` calls threading the module-level singleton
state; returns the limiter each call observed. -/
def getRateLimiterSeqAux (envRPM : Option ℕ) :
    Option LimiterConfig → List (Option RLOptions) → List LimiterConfig
  | _, [] => []
  | s, o :: rest =>
    let r := getRateLimiterCall envRPM s o
    r.1 :: getRateLimiterSeqAux envRPM r.2 rest

/-- Sequence of `getRateLimiter` calls against the module state, which starts
with `singleton = null`. -/
def getRateLimiterSeq (envRPM : Option ℕ) (calls : List (Option RLOptions)) : List LimiterConfig :=
  getRateLimiterSeqAux envRPM none calls

/-- Mutable state of one `QueuedRateLimiter`: the FIFO queue of scheduled task
ids, the time of the last dispatch, and whether the interval timer is armed. -/
structure RLState where
  queue : List ℕ
  lastRunAt : Option ℕ
  isRunning : Bool
deriving Repr, DecidableEq

/-- Fresh limiter state (constructor: empty queue, no timer, `lastRunAt = null`). -/
def initRL : RLState := { queue := [], lastRunAt := none, isRunning := false }

/-- External events: `schedule` enqueues a task (and arms the timer via
`start()`); `tick` is one firing of the interval timer. -/
inductive RLEvent where
  | schedule (id : ℕ)
  | tick
deriving Repr, DecidableEq

/-- One step of the limiter at wall-clock time `now`.  `schedule` pushes onto the
queue and arms the timer.  `tick` mirrors the `tick` closure: with an empty queue
it stops the timer; otherwise it dispatches the queue head only when
`now - lastRunAt ≥ intervalMs` (or on the very first dispatch), recording
`lastRunAt := now`.  A `tick` with the timer disarmed cannot occur and is a no-op.
The second result is the dispatch performed, if any, as `(time, taskId)`. -/
def rlStep (intervalMs : ℕ) (st : RLState) (now : ℕ) :
    RLEvent → RLState × Option (ℕ × ℕ)
  | RLEvent.schedule id =>
    ({ st with queue := st.queue ++ [id], isRunning := true }, none)
  | RLEvent.tick =>
    if st.isRunning = false then (st, none)
    else
      match st.queue with
      | [] => ({ st with isRunning := false }, none)
      | next :: rest =>
        match st.lastRunAt with
        | some t =>
          if now - t < intervalMs then (st, none)
          else ({ queue := rest, lastRunAt := some now, isRunning := true }, some (now, next))
        | none => ({ queue := rest, lastRunAt := some now, isRunning := true }, some (now, next))

/-- Run a timed event trace from a state, collecting the dispatch log in order. -/
def rlRun (intervalMs : ℕ) : List (ℕ × RLEvent) → RLState → RLState × List (ℕ × ℕ)
  | [], st => (st, [])
  | (t, e) :: rest, st =>
    let step := rlStep intervalMs st t e
    let tail := rlRun intervalMs rest step.1
    (tail.1, step.2.toList ++ tail.2)

/-- Task ids of the `schedule` events of a trace, in submission order. -/
def scheduledIds : List (ℕ × RLEvent) → List ℕ
  | [] => []
  | (_, RLEvent.schedule id) :: rest => id :: scheduledIds rest
  | (_, RLEvent.tick) :: rest => scheduledIds rest

/-! Retry/backoff layer (`withRateLimitRetry` in the plan generator) and the
error translation of its callers. -/

/-- A JavaScript `err.code` value as the two 429 checks see it: a number or a
string (other shapes behave like a non-matching one). -/
inductive CodeVal where
  | num (n : ℕ)
  | str (s : String)
deriving Repr, DecidableEq

/-- The error shape the retry layer and the `generatePlan` catch inspect.
`status` is the numeric `err.status` (`none` when absent or falsy), `code` is
`err.code` (`none` when absent or falsy).  `msgHas429` records whether
`/429/.test(String(err?.message ?? ''))` holds — the retry layer's message test;
`errMsgHas429` records whether `/429/.test(err.message || err.toString())`
holds — `generatePlan`'s `errMsg` test (it falls back to `toString()` when the
message is falsy, so the two bits are distinct observables of the same object).
`retryAfter` is the parsed `retry-after` header in seconds when present. -/
structure CallError where
  status : Option ℕ
  code : Option CodeVal
  msgHas429 : Bool
  errMsgHas429 : Bool
  retryAfter : Option ℕ
deriving Repr, DecidableEq

/-- The retry layer's status test: `const status = err?.status || err?.code;
status === 429`.  JavaScript `||` picks `status` when truthy, else `code`; the
strict comparison with the number 429 succeeds only on a numeric 429 (a string
`'429'` code does not match). -/
def statusOrCode429 (e : CallError) : Bool :=
  match e.status with
  | some n => n == 429
  | none =>
    match e.code with
    | some (CodeVal.num n) => n == 429
    | _ => false

/-- The retry layer's throttling predicate (`withRateLimitRetry`):
`status === 429 || /429/.test(String(err?.message ?? ''))`. -/
def retryIsRateLimit (e : CallError) : Bool :=
  statusOrCode429 e || e.msgHas429

/-- The distinct 429 test of `generatePlan`'s own catch:
`anyErr.code === '429' || anyErr.status === 429 || /429/.test(errMsg)` — note
the *string* comparison on `code`, unlike the retry layer's numeric one. -/
def planCatch429 (e : CallError) : Bool :=
  (e.code == some (CodeVal.str "429")) || (e.status == some 429) || e.errMsgHas429

/-- Outcome of one attempt of the wrapped asynchronous call. -/
inductive CallOutcome (α : Type) where
  | ok (v : α)
  | fail (e : CallError)
deriving Repr, DecidableEq

/-- Delay slept before the next attempt:
`delay = retryAfter ? retryAfter*1000 : Math.min(maxDelayMs, baseDelayMs * 2^attempt)`
followed by `delay = Math.min(maxDelayMs, delay + jitter)` with
`jitter = Math.floor(Math.random() * 250)`. -/
def backoffDelay (baseDelayMs maxDelayMs attempt : ℕ) (retryAfter : Option ℕ)
    (jitter : ℕ) : ℕ :=
  let d := match retryAfter with
    | some ra => ra * 1000
    | none => min maxDelayMs (baseDelayMs * 2 ^ attempt)
  min maxDelayMs (d + jitter)

/-- Loop body of `withRateLimitRetry`: `outcomes k` is the result of attempt `k`
(the wrapped call is re-invoked each iteration) and `jitter k` its random jitter.
`remaining = retries - attempt` counts the retries still allowed; a non-throttling
failure, or a failure with no retries left (`attempt === retries`), is rethrown.
Returns the final outcome and the list of delays slept. -/
def retryAux {α : Type} (outcomes : ℕ → CallOutcome α) (jitter : ℕ → ℕ)
    (baseDelayMs maxDelayMs : ℕ) : ℕ → ℕ → CallOutcome α × List ℕ
  | attempt, 0 =>
    match outcomes attempt with
    | CallOutcome.ok v => (CallOutcome.ok v, [])
    | CallOutcome.fail e => (CallOutcome.fail e, [])
  | attempt, remaining + 1 =>
    match outcomes attempt with
    | CallOutcome.ok v => (CallOutcome.ok v, [])
    | CallOutcome.fail e =>
      if retryIsRateLimit e = false then (CallOutcome.fail e, [])
      else
        let d := backoffDelay baseDelayMs maxDelayMs attempt e.retryAfter (jitter attempt)
        let rest := retryAux outcomes jitter baseDelayMs maxDelayMs (attempt + 1) remaining
        (rest.1, d :: rest.2)

/-- Model of `withRateLimitRetry(fn, options)`: attempts start at 0 with
`retries` retries allowed. -/
def withRateLimitRetry {α : Type} (outcomes : ℕ → CallOutcome α) (jitter : ℕ → ℕ)
    (retries baseDelayMs maxDelayMs : ℕ) : CallOutcome α × List ℕ :=
  retryAux outcomes jitter baseDelayMs maxDelayMs 0 retries

/-- Defaults of `withRateLimitRetry`: 5 retries, 500 ms base delay, 8000 ms cap. -/
def defaultRetries : ℕ := 5

/-- Default base delay in milliseconds. -/
def defaultBaseDelayMs : ℕ := 500

/-- Default delay cap in milliseconds. -/
def defaultMaxDelayMs : ℕ := 8000

/-- Errors surfaced by `generatePlan`: the distinguished rate-limit guidance
message, or a wrapped generic failure. -/
inductive PlanError where
  | rateLimitedHelp
  | other (msg : String)
deriving Repr, DecidableEq

/-- The catch block of `generatePlan`: an error passing `generatePlan`'s own 429
test (`planCatch429` — not the retry layer's `retryIsRateLimit`) becomes the
distinguished rate-limit help error; anything else is rethrown as
`Plan generation failed`. -/
def generatePlanWrap {α : Type} (r : CallOutcome α) : Except PlanError α :=
  match r with
  | CallOutcome.ok v => Except.ok v
  | CallOutcome.fail e =>
    if planCatch429 e then Except.error PlanError.rateLimitedHelp
    else Except.error (PlanError.other "Plan generation failed")

/-- The catch block of `generatePlanSummary`: every failure — including retry
exhaustion on throttling — is swallowed and the fallback string is returned. -/
def generatePlanSummaryWrap (r : CallOutcome String) : String :=
  match r with
  | CallOutcome.ok v => v
  | CallOutcome.fail _ => "Summary generation failed"

/-- Result shape of `validatePlan`. -/
structure ValidationResult where
  isValid : Bool
  score : ℕ
  suggestions : List String
deriving Repr, DecidableEq

/-- The body and catch block of `validatePlan`: on success the evaluation text
is scored (`scoreOf` abstracts the `/(\d+)\/10/` extraction with its default 5)
and `isValid` is `score ≥ 7`; every failure — including retry exhaustion on
throttling — is swallowed into the fallback record. -/
def validatePlanWrap (scoreOf : String → ℕ) (r : CallOutcome String) : ValidationResult :=
  match r with
  | CallOutcome.ok evaluation =>
    { isValid := 7 ≤ scoreOf evaluation, score := scoreOf evaluation,
      suggestions := [evaluation] }
  | CallOutcome.fail _ =>
    { isValid := false, score := 0, suggestions := ["Plan validation failed"] }

/-- A plain server failure: 500 status, no 429 anywhere. -/
def err500 : CallError :=
  { status := some 500, code := none, msgHas429 := false, errMsgHas429 := false,
    retryAfter := none }

/-- A typical provider throttle: numeric 429 status with a 429 message. -/
def err429status : CallError :=
  { status := some 429, code := none, msgHas429 := true, errMsgHas429 := true,
    retryAfter := none }

/-- An error carrying the *number* 429 in `err.code`, with no `status` and no
`'429'` in its message: throttling to the retry layer, invisible to
`generatePlan`'s string-compare catch. -/
def err429numCode : CallError :=
  { status := none, code := some (CodeVal.num 429), msgHas429 := false,
    errMsgHas429 := false, retryAfter := none }

/-! Worker (`CodePlannerWorker` in the engine's main worker module). -/

/-- Result kinds published on `results:<jobId>`. -/
inductive RKind where
  | stream
  | complete
  | error
deriving Repr, DecidableEq

/-- One published result; the payload is abstracted to a string and the
`timestamp` field is omitted (no claim concerns it). -/
structure WResult where
  jobId : String
  kind : RKind
  data : String
deriving Repr, DecidableEq

/-- A job as decoded from `jobs:pending`. -/
structure WJob where
  jobId : String
  connectionId : String
  userId : String
  projectId : String
  command : String
  data : String
deriving Repr, DecidableEq

/-- Observable behaviour of one handler invocation
(`handleIndex` / `handlePlan` / `handleErrorAnalysis`): the handler publishes a
sequence of `stream` results and then either publishes one `complete` result and
returns, or throws after its streams.  Each handler's own catch block only
rethrows, no handler publishes an `error` result itself, and nothing after the
`complete` publication can throw. -/
inductive HandlerRun where
  | completes (streams : List String) (final : String)
  | throwsAfter (streams : List String) (errMsg : String)
deriving Repr, DecidableEq

/-- Results a handler publishes for `jobId`, paired with the error it throws, if
any. -/
def handlerResults (jobId : String) : HandlerRun → List WResult × Option String
  | HandlerRun.completes streams final =>
    (streams.map (fun s => { jobId := jobId, kind := RKind.stream, data := s })
      ++ [{ jobId := jobId, kind := RKind.complete, data := final }], none)
  | HandlerRun.throwsAfter streams errMsg =>
    (streams.map (fun s => { jobId := jobId, kind := RKind.stream, data := s }), some errMsg)

/-- The commands the worker's `switch` recognises. -/
def knownCommand (c : String) : Bool :=
  c = "index" || c = "plan" || c = "analyze-error"

/-- Model of `CodePlannerWorker.processJob`: dispatch on `job.command`; an
unknown command throws `Unknown command: ...` before any handler runs; any
exception is caught at the top and converted by `publishError` into one `error`
result for the job.  The function is total: a job's failure never escapes. -/
def processJob (job : WJob) (runs : String → HandlerRun) : List WResult :=
  if knownCommand job.command then
    let r := handlerResults job.jobId (runs job.command)
    match r.2 with
    | none => r.1
    | some msg => r.1 ++ [{ jobId := job.jobId, kind := RKind.error, data := msg }]
  else
    [{ jobId := job.jobId, kind := RKind.error,
       data := "Unknown command: " ++ job.command }]

/-- The worker's subscription loop on `jobs:pending`: each delivered job is
processed in turn; `processJob` never throws, so every job is reached. -/
def workerLoop (jobs : List (WJob × (String → HandlerRun))) : List WResult :=
  jobs.flatMap (fun jb => processJob jb.1 jb.2)

/-- Count of `error` results published for a given job id. -/
def errorCount (results : List WResult) (jobId : String) : ℕ :=
  (results.filter (fun r => r.jobId = jobId ∧ r.kind = RKind.error)).length

/-! Gateway (`CodePlannerGateway.handleJobResult` in the gateway server). -/

/-- A result message as received on `results:<jobId>`, with its `type` tag kept
as the raw string of the envelope. -/
structure GResult where
  jobId : String
  type : String
  data : String
deriving Repr, DecidableEq

/-- A client-facing WebSocket message. -/
structure GClientMsg where
  type : String
  jobId : String
  data : String
deriving Repr, DecidableEq

/-- Model of `CodePlannerGateway.handleJobResult`: the client message type is
`result.type === 'complete' ? 'response' : 'stream'`, and the gateway
unsubscribes from `results:<jobId>` exactly when `result.type === 'complete'`.
Returns the message sent and whether an unsubscribe was issued. -/
def handleJobResult (result : GResult) : GClientMsg × Bool :=
  ({ type := if result.type = "complete" then "response" else "stream",
     jobId := result.jobId, data := result.data },
   result.type = "complete")

/-! Concrete fixtures used to instantiate the claims, and a decidable validity
check for stored vectors. -/

/-- Validity of a stored hash for a query `q`: a present hash must have an
embedding of `q`'s dimension with nonzero squared magnitude (a missing hash is
skipped by the scan and is fine). -/
def chunkScoreOK (q : List ℚ) (oh : Option ChunkHash) : Bool :=
  match oh with
  | none => true
  | some h => (h.embedding.length = q.length) && (sqMagnitude h.embedding != 0)

/-- The empty Redis state. -/
def emptyState : RedisState := { sets := [], hashes := [] }

/-- A chunk without an embedding. -/
def noEmbChunk : CodeChunk :=
  { id := "c0", content := "x", type := "class", filePath := "g.ts",
    name := none, embedding := none }

/-- A chunk carrying a one-dimensional embedding. -/
def embChunk : CodeChunk :=
  { id := "c1", content := "abc", type := "function", filePath := "f.ts",
    name := some "foo", embedding := some [1] }

/-- Twenty-one chunk ids. -/
def cexIds : List String := (List.range 21).map (fun n => "c" ++ toString n)

/-- A stored hash with embedding `[1]` for a given id. -/
def cexHash (i : String) : ChunkHash :=
  { id := i, content := "x", type := "function", filePath := "f.ts",
    name := "", embedding := [1], createdAt := "0" }

/-- A project state holding 21 embedded chunks. -/
def cexState : RedisState :=
  { sets := [(getProjectIndexKey defaultVSConfig "u" "p", cexIds)],
    hashes := cexIds.map (fun i => (getChunkKey defaultVSConfig "u" "p" i, cexHash i)) }

/-- A project state holding three two-dimensional embedded chunks. -/
def exState3 : RedisState :=
  { sets := [(getProjectIndexKey defaultVSConfig "u" "p", ["a", "b", "c"])],
    hashes :=
      [(getChunkKey defaultVSConfig "u" "p" "a",
        { id := "a", content := "ca", type := "function", filePath := "f.ts",
          name := "", embedding := [1, 0], createdAt := "0" }),
       (getChunkKey defaultVSConfig "u" "p" "b",
        { id := "b", content := "cb", type := "function", filePath := "f.ts",
          name := "", embedding := [0, 1], createdAt := "0" }),
       (getChunkKey defaultVSConfig "u" "p" "c",
        { id := "c", content := "cc", type := "class", filePath := "g.ts",
          name := "", embedding := [1, 1], createdAt := "0" })] }

/-! Basic lemmas about the association-list keyspace. -/

theorem alookup_aset_self {α : Type} (l : List (String × α)) (k : String) (v : α) :
    alookup (aset l k v) k = some v := by
  induction l with
  | nil => simp [aset, alookup]
  | cons kv rest ih =>
    by_cases h : kv.1 = k
    · simp [aset, alookup, h]
    · simp [aset, alookup, h, ih]

theorem alookup_aset_ne {α : Type} (l : List (String × α)) (k k' : String) (v : α)
    (h : k' ≠ k) : alookup (aset l k v) k' = alookup l k' := by
  induction l with
  | nil => simp [aset, alookup, Ne.symm h]
  | cons kv rest ih =>
    by_cases hk : kv.1 = k
    · simp [aset, alookup, hk, Ne.symm h]
    · simp [aset, alookup, hk, ih]

theorem alookup_aerase_self {α : Type} (l : List (String × α)) (k : String) :
    alookup (aerase l k) k = none := by
  induction l with
  | nil => simp [aerase, alookup]
  | cons kv rest ih =>
    by_cases h : kv.1 = k
    · simp [aerase, h, ih]
    · simp [aerase, alookup, h, ih]

theorem alookup_aerase_none {α : Type} (l : List (String × α)) (k k' : String)
    (h : alookup l k = none) : alookup (aerase l k') k = none := by
  induction l with
  | nil => simp [aerase, alookup]
  | cons kv rest ih =>
    by_cases hk : kv.1 = k
    · simp [alookup, hk] at h
    · simp only [alookup, if_neg hk] at h
      by_cases hk' : kv.1 = k'
      · simp [aerase, hk', ih h]
      · simp [aerase, alookup, hk', hk, ih h]

/-! Claim theorems, in claim order where dependencies allow. -/

/-- Claim C5 (corrected), counterexample: a worker-side `error` result for a job
is translated by `handleJobResult` into a client message of type `stream`, not
`error` — the gateway's ternary only distinguishes `complete`. -/
theorem C5_counterexample :
    (handleJobResult { jobId := "job-1", type := "error", data := "boom" }).1.type
      = "stream" ∧
    (handleJobResult { jobId := "job-1", type := "error", data := "boom" }).1.type
      ≠ "error" := by
  constructor
  · rfl
  · decide

/-- Claim C5 (amended): `handleJobResult` translates a `stream` result to a
`stream` message and a `complete` result to a `response` message, but an `error`
result also becomes a `stream` message (every non-`complete` kind does); the
job id and payload are forwarded unchanged. -/
theorem C5_result_translation (jobId data : String) :
    (handleJobResult { jobId := jobId, type := "stream", data := data }).1.type = "stream" ∧
    (handleJobResult { jobId := jobId, type := "complete", data := data }).1.type = "response" ∧
    (handleJobResult { jobId := jobId, type := "error", data := data }).1.type = "stream" ∧
    (∀ r : GResult, (handleJobResult r).1.jobId = r.jobId ∧ (handleJobResult r).1.data = r.data) := by
  refine ⟨by simp [handleJobResult], by simp [handleJobResult], by simp [handleJobResult],
    fun r => ⟨rfl, rfl⟩⟩

/-- Claim C6 (corrected), counterexample: upon a terminal `error` result the
gateway does not unsubscribe from the job's result channel — only `complete`
triggers `unsubscribeFromResults`. -/
theorem C6_counterexample :
    (handleJobResult { jobId := "job-1", type := "error", data := "boom" }).2 = false := by
  decide

/-- Claim C6 (amended): the gateway unsubscribes from `results:<jobId>` exactly
when the received result's kind is `complete`; an `error` terminal result leaves
the subscription open. -/
theorem C6_unsubscribe_on_complete (r : GResult) :
    (handleJobResult r).2 = true ↔ r.type = "complete" := by
  simp [handleJobResult]

/-- Invariant for `getRateLimiterSeq`: once the singleton exists, every further
call returns it unchanged, whatever its options. -/
theorem getRateLimiterSeqAux_some (envRPM : Option ℕ) (l : List (Option RLOptions))
    (cfg : LimiterConfig) :
    getRateLimiterSeqAux envRPM (some cfg) l = List.replicate l.length cfg := by
  induction l with
  | nil => rfl
  | cons o rest ih =>
    simp [getRateLimiterSeqAux, getRateLimiterCall, ih, List.replicate_succ]

/-- Claim C10 (confirmed): `getRateLimiter` returns the same process-wide
instance on every call — all calls after the first observe the limiter built
from the first caller's options — and with the `RPM` environment variable unset
the effective rate is `max 1 (options.requestsPerMinute ?? 20)`. -/
theorem C10_singleton_rate_limiter (envRPM : Option ℕ) (o₀ : Option RLOptions)
    (rest : List (Option RLOptions)) :
    getRateLimiterSeq envRPM (o₀ :: rest) =
      List.replicate (rest.length + 1) (mkLimiter envRPM o₀) ∧
    (∀ o : Option RLOptions,
      (mkLimiter none o).requestsPerMinute =
        max 1 ((o.bind (fun x => x.requestsPerMinute)).getD 20) ∧
      (mkLimiter none o).intervalMs =
        60000 / (mkLimiter none o).requestsPerMinute) := by
  constructor
  · show getRateLimiterSeqAux envRPM none (o₀ :: rest) = _
    simp [getRateLimiterSeqAux, getRateLimiterCall, getRateLimiterSeqAux_some,
      List.replicate_succ]
  · intro o
    exact ⟨rfl, rfl⟩

/-- Stream results a handler publishes contribute no `error` result. -/
theorem errorCount_stream_map (jobId j : String) (streams : List String) :
    errorCount (streams.map (fun s => { jobId := j, kind := RKind.stream, data := s })) jobId
      = 0 := by
  induction streams with
  | nil => rfl
  | cons s rest ih => simp [errorCount, List.filter_cons, ih]

/-- Claim C1 (confirmed): whenever a handler throws during command handling, or
the job's command is unknown, `processJob` publishes exactly one `error` result
for that job id, and the subscription loop is unaffected by any job's outcome:
the results of later jobs are exactly what they would be on their own. -/
theorem C1_worker_error_isolation (job : WJob) (runs : String → HandlerRun)
    (hfail : (∃ streams msg, runs job.command = HandlerRun.throwsAfter streams msg) ∨
      knownCommand job.command = false) :
    errorCount (processJob job runs) job.jobId = 1 ∧
    (∀ jobs rest : List (WJob × (String → HandlerRun)),
      workerLoop (jobs ++ rest) = workerLoop jobs ++ workerLoop rest) := by
  constructor
  · by_cases hk : knownCommand job.command
    · rcases hfail with ⟨streams, msg, hrun⟩ | hun
      · have h0 := errorCount_stream_map job.jobId job.jobId streams
        simp only [errorCount] at h0
        simp [processJob, hk, hrun, handlerResults, errorCount, List.filter_append, h0]
      · rw [hun] at hk
        cases hk
    · simp [processJob, hk, errorCount]
  · intro jobs rest
    simp [workerLoop]

/-- Claim C1 witness: a `plan` job whose handler throws after one stream yields
exactly one `error` result, and the loop splits around it. -/
theorem C1_worker_error_isolation_witness :
    errorCount
        (processJob
          { jobId := "j1", connectionId := "c1", userId := "u", projectId := "p",
            command := "plan", data := "q" }
          (fun _ => HandlerRun.throwsAfter ["s1"] "boom")) "j1" = 1 ∧
    (∀ jobs rest : List (WJob × (String → HandlerRun)),
      workerLoop (jobs ++ rest) = workerLoop jobs ++ workerLoop rest) :=
  C1_worker_error_isolation
    { jobId := "j1", connectionId := "c1", userId := "u", projectId := "p",
      command := "plan", data := "q" }
    (fun _ => HandlerRun.throwsAfter ["s1"] "boom")
    (Or.inl ⟨["s1"], "boom", rfl⟩)

/-- Exhaustion run of the retry loop: when every attempt up to the bound fails
with a throttling error, the loop performs every retry, sleeping the computed
backoff delay each time, and rethrows the last error. -/
theorem retryAux_allFail {α : Type} (outcomes : ℕ → CallOutcome α) (jitter : ℕ → ℕ)
    (b m : ℕ) (errs : ℕ → CallError) (remaining attempt : ℕ)
    (hall : ∀ k, attempt ≤ k → k ≤ attempt + remaining →
      outcomes k = CallOutcome.fail (errs k) ∧ retryIsRateLimit (errs k) = true) :
    retryAux outcomes jitter b m attempt remaining =
      (CallOutcome.fail (errs (attempt + remaining)),
       (List.range' attempt remaining).map
         (fun k => backoffDelay b m k (errs k).retryAfter (jitter k))) := by
  induction remaining generalizing attempt with
  | zero =>
    obtain ⟨h1, _⟩ := hall attempt le_rfl (by omega)
    simp [retryAux, h1]
  | succ n ih =>
    obtain ⟨h1, h2⟩ := hall attempt le_rfl (by omega)
    have hrec := ih (attempt + 1) (fun k hk1 hk2 => hall k (by omega) (by omega))
    have harith : attempt + 1 + n = attempt + (n + 1) := by omega
    simp [retryAux, h1, h2, hrec, List.range'_succ, harith]

/-- Claim C4 (amended): a failure the retry layer does not classify as
throttling is returned at once with no retry and no sleep; when every attempt
throttles, the loop retries exactly `retries` times with delays
`min maxDelayMs ((retryAfter*1000 | min maxDelayMs (base*2^attempt)) + jitter)`
and rethrows the last throttling error.  The `generatePlan` catch converts the
rethrown error into the distinguished rate-limit guidance error exactly when
its own, slightly different 429 test matches (string `code === '429'`, numeric
`status === 429`, or the message) — in particular whenever the provider set a
429 status — and otherwise wraps it as a generic failure; `generatePlanSummary`
and `validatePlan` swallow every failure into fallback return values.  Every
delay is capped by `maxDelayMs`; the defaults are 5 retries, 500 ms base,
8000 ms cap. -/
theorem C4_retry_backoff {α : Type} (outcomes : ℕ → CallOutcome α) (jitter : ℕ → ℕ)
    (retries baseDelayMs maxDelayMs : ℕ) (errs : ℕ → CallError) (e0 : CallError) :
    (outcomes 0 = CallOutcome.fail e0 → retryIsRateLimit e0 = false →
      withRateLimitRetry outcomes jitter retries baseDelayMs maxDelayMs =
        (CallOutcome.fail e0, [])) ∧
    ((∀ k, k ≤ retries →
        outcomes k = CallOutcome.fail (errs k) ∧ retryIsRateLimit (errs k) = true) →
      withRateLimitRetry outcomes jitter retries baseDelayMs maxDelayMs =
        (CallOutcome.fail (errs retries),
         (List.range retries).map
           (fun k => backoffDelay baseDelayMs maxDelayMs k (errs k).retryAfter (jitter k)))) ∧
    (∀ e : CallError,
      (generatePlanWrap (CallOutcome.fail e : CallOutcome α) =
          Except.error PlanError.rateLimitedHelp ↔ planCatch429 e = true) ∧
      (e.status = some 429 → planCatch429 e = true)) ∧
    (∀ e : CallError, ∀ scoreOf : String → ℕ,
      generatePlanSummaryWrap (CallOutcome.fail e) = "Summary generation failed" ∧
      validatePlanWrap scoreOf (CallOutcome.fail e) =
        { isValid := false, score := 0, suggestions := ["Plan validation failed"] }) ∧
    (∀ attempt j, ∀ ra : Option ℕ,
      backoffDelay baseDelayMs maxDelayMs attempt ra j ≤ maxDelayMs ∧
      backoffDelay baseDelayMs maxDelayMs attempt none j =
        min maxDelayMs (min maxDelayMs (baseDelayMs * 2 ^ attempt) + j) ∧
      ∀ ra0 : ℕ, backoffDelay baseDelayMs maxDelayMs attempt (some ra0) j =
        min maxDelayMs (ra0 * 1000 + j)) ∧
    defaultRetries = 5 ∧ defaultBaseDelayMs = 500 ∧ defaultMaxDelayMs = 8000 := by
  refine ⟨?_, ?_, ?_, ?_, ?_, rfl, rfl, rfl⟩
  · intro h1 h2
    cases retries with
    | zero => simp [withRateLimitRetry, retryAux, h1]
    | succ n => simp [withRateLimitRetry, retryAux, h1, h2]
  · intro hall
    have h := retryAux_allFail outcomes jitter baseDelayMs maxDelayMs errs retries 0
      (fun k hk1 hk2 => hall k (by omega))
    have hr : List.range' 0 retries = List.range retries := (List.range_eq_range' retries).symm
    rw [hr] at h
    simp only [Nat.zero_add] at h
    exact by simpa [withRateLimitRetry] using h
  · intro e
    constructor
    · constructor
      · intro h
        by_contra hc
        simp [generatePlanWrap, hc] at h
      · intro h
        simp [generatePlanWrap, h]
    · intro h
      simp [planCatch429, h]
  · intro e scoreOf
    exact ⟨rfl, rfl⟩
  · intro attempt j ra
    exact ⟨min_le_left _ _, rfl, fun ra0 => rfl⟩

/-- Claim C4 witness: a 500-status failure is never retried; six attempts all
failing with a provider 429 status exhaust the five retries and `generatePlan`
surfaces the distinguished rate-limit error for that 429-status error. -/
theorem C4_retry_backoff_witness :
    withRateLimitRetry (fun _ => (CallOutcome.fail err500 : CallOutcome Unit))
        (fun _ => 0) 5 500 8000 = (CallOutcome.fail err500, []) ∧
    withRateLimitRetry (fun _ => (CallOutcome.fail err429status : CallOutcome Unit))
        (fun _ => 7) 5 500 8000 =
      (CallOutcome.fail err429status,
       (List.range 5).map (fun k => backoffDelay 500 8000 k none 7)) ∧
    planCatch429 err429status = true ∧
    generatePlanWrap (CallOutcome.fail err429status : CallOutcome Unit) =
      Except.error PlanError.rateLimitedHelp := by
  refine ⟨?_, ?_, ?_, ?_⟩
  · exact (C4_retry_backoff (fun _ => (CallOutcome.fail err500 : CallOutcome Unit))
      (fun _ => 0) 5 500 8000 (fun _ => err500) err500).1 rfl rfl
  · exact (C4_retry_backoff (fun _ => (CallOutcome.fail err429status : CallOutcome Unit))
      (fun _ => 7) 5 500 8000 (fun _ => err429status) err429status).2.1
      (fun k _ => ⟨rfl, rfl⟩)
  · exact ((C4_retry_backoff (fun _ => (CallOutcome.fail err429status : CallOutcome Unit))
      (fun _ => 7) 5 500 8000 (fun _ => err429status) err429status).2.2.1
      err429status).2 rfl
  · exact ((C4_retry_backoff (fun _ => (CallOutcome.fail err429status : CallOutcome Unit))
      (fun _ => 7) 5 500 8000 (fun _ => err429status) err429status).2.2.1
      err429status).1.mpr (by decide)

/-- Claim C4 (corrected), counterexample: exhausting the retries on throttling
errors does not surface a distinguished `RateLimited` error for every wrapped
call.  `generatePlanSummary` swallows the exhausted throttling failure into the
fallback summary string; and the two 429 tests genuinely differ: an error with
*numeric* `code : 429`, no `status` and no `'429'` in its message is throttling
to the retry layer (`err.status || err.code` is the number 429), exhausts all
five retries, yet fails `generatePlan`'s own catch test (string `'429'` code /
429 status / message), so even the plan path throws the generic
`Plan generation failed` instead of the distinguished rate-limit error. -/
theorem C4_counterexample :
    generatePlanSummaryWrap
        (withRateLimitRetry (fun _ => CallOutcome.fail err429numCode)
          (fun _ => 0) 5 500 8000).1 = "Summary generation failed" ∧
    retryIsRateLimit err429numCode = true ∧
    (withRateLimitRetry (fun _ => (CallOutcome.fail err429numCode : CallOutcome String))
        (fun _ => 0) 5 500 8000).2.length = 5 ∧
    generatePlanWrap
        (withRateLimitRetry (fun _ => (CallOutcome.fail err429numCode : CallOutcome String))
          (fun _ => 0) 5 500 8000).1 =
      Except.error (PlanError.other "Plan generation failed") := by
  exact ⟨rfl, rfl, rfl, rfl⟩

/-! Redis-state lemmas for the store claims. -/

theorem hGetAll_del_self (st : RedisState) (k : String) : (st.del k).hGetAll k = none :=
  alookup_aerase_self st.hashes k

theorem hGetAll_del_none (st : RedisState) (k k' : String) (h : st.hGetAll k = none) :
    (st.del k').hGetAll k = none :=
  alookup_aerase_none st.hashes k k' h

theorem sMembers_del_self (st : RedisState) (k : String) : (st.del k).sMembers k = [] := by
  simp [RedisState.sMembers, RedisState.del, alookup_aerase_self]

/-- Folding deletions preserves an already-missing hash. -/
theorem foldl_del_preserves_none (f : String → String) (ids : List String)
    (st : RedisState) (key : String) (h : st.hGetAll key = none) :
    (ids.foldl (fun s c => s.del (f c)) st).hGetAll key = none := by
  induction ids generalizing st with
  | nil => exact h
  | cons a rest ih => exact ih (st.del (f a)) (hGetAll_del_none st key (f a) h)

/-- Folding deletions over a list of ids removes the hash of each listed id. -/
theorem foldl_del_hGetAll_none (f : String → String) (ids : List String)
    (st : RedisState) (cid : String) (hmem : cid ∈ ids) :
    (ids.foldl (fun s c => s.del (f c)) st).hGetAll (f cid) = none := by
  induction ids generalizing st with
  | nil => cases hmem
  | cons a rest ih =>
    rcases List.mem_cons.mp hmem with heq | htail
    · subst heq
      exact foldl_del_preserves_none f rest (st.del (f cid)) (f cid)
        (hGetAll_del_self st (f cid))
    · exact ih (st.del (f a)) htail

/-- Clearing a project whose index set is already empty returns the state
unchanged (the early-return branch). -/
theorem clearProject_of_empty (cfg : VSConfig) (u p : String) (st : RedisState)
    (h : st.sMembers (getProjectIndexKey cfg u p) = []) :
    clearProject cfg u p st = st := by
  rw [clearProject]
  simp [h]

/-- Claim C9 (confirmed): `clearProject` removes every chunk registered in the
project's index together with the index set itself, is idempotent — clearing an
already-cleared project returns the state unchanged and raises no error — and
`getStats` immediately after a clear reports zero chunks, whatever the prior
state. -/
theorem C9_clear_project (cfg : VSConfig) (u p : String) (st : RedisState) :
    (∀ cid, cid ∈ st.sMembers (getProjectIndexKey cfg u p) →
      (clearProject cfg u p st).hGetAll (getChunkKey cfg u p cid) = none) ∧
    (clearProject cfg u p st).sMembers (getProjectIndexKey cfg u p) = [] ∧
    clearProject cfg u p (clearProject cfg u p st) = clearProject cfg u p st ∧
    (getStats cfg u p (clearProject cfg u p st)).totalChunks = 0 := by
  have hidx : (clearProject cfg u p st).sMembers (getProjectIndexKey cfg u p) = [] := by
    by_cases hempty : (st.sMembers (getProjectIndexKey cfg u p)).isEmpty
    · rw [clearProject]
      simp only [hempty, if_pos]
      exact List.isEmpty_iff.mp hempty
    · rw [clearProject]
      simp only [hempty, if_neg, Bool.false_eq_true, not_false_iff]
      exact sMembers_del_self _ _
  refine ⟨?_, hidx, ?_, ?_⟩
  · intro cid hmem
    have hne : ¬ (st.sMembers (getProjectIndexKey cfg u p)).isEmpty := by
      intro hempty
      rw [List.isEmpty_iff.mp hempty] at hmem
      cases hmem
    rw [clearProject]
    simp only [hne, if_neg, Bool.false_eq_true, not_false_iff]
    exact hGetAll_del_none _ _ _
      (foldl_del_hGetAll_none (getChunkKey cfg u p) _ st cid hmem)
  · exact clearProject_of_empty cfg u p _ hidx
  · rw [getStats]
    simp [hidx]

/-- Claim C9 witness: clearing a one-chunk project removes its hash, empties the
index, and yields zero reported chunks. -/
theorem C9_clear_project_witness :
    (clearProject defaultVSConfig "u" "p"
        { sets := [(getProjectIndexKey defaultVSConfig "u" "p", ["c1"])],
          hashes := [(getChunkKey defaultVSConfig "u" "p" "c1",
            { id := "c1", content := "x", type := "function", filePath := "f.ts",
              name := "", embedding := [1], createdAt := "0" })] }).hGetAll
      (getChunkKey defaultVSConfig "u" "p" "c1") = none ∧
    (getStats defaultVSConfig "u" "p"
        (clearProject defaultVSConfig "u" "p"
          { sets := [(getProjectIndexKey defaultVSConfig "u" "p", ["c1"])],
            hashes := [(getChunkKey defaultVSConfig "u" "p" "c1",
              { id := "c1", content := "x", type := "function", filePath := "f.ts",
                name := "", embedding := [1], createdAt := "0" })] })).totalChunks = 0 := by
  constructor
  · exact (C9_clear_project defaultVSConfig "u" "p" _).1 "c1" (by decide)
  · exact (C9_clear_project defaultVSConfig "u" "p" _).2.2.2

theorem hGetAll_hSetChunk_self (st : RedisState) (k : String) (h : ChunkHash) :
    (st.hSetChunk k h).hGetAll k = some h :=
  alookup_aset_self st.hashes k h

theorem hGetAll_hSetChunk_ne (st : RedisState) (k k' : String) (h : ChunkHash)
    (hne : k' ≠ k) : (st.hSetChunk k h).hGetAll k' = st.hGetAll k' :=
  alookup_aset_ne st.hashes k k' h hne

theorem hGetAll_sAdd (st : RedisState) (k m key : String) :
    (st.sAdd k m).hGetAll key = st.hGetAll key := by
  simp only [RedisState.sAdd]
  by_cases hm : m ∈ st.sMembers k <;> simp [hm, RedisState.hGetAll]

theorem sMembers_hSetChunk (st : RedisState) (k : String) (h : ChunkHash) (key : String) :
    (st.hSetChunk k h).sMembers key = st.sMembers key := rfl

theorem sMembers_sAdd_ne (st : RedisState) (k m key : String) (hne : key ≠ k) :
    (st.sAdd k m).sMembers key = st.sMembers key := by
  simp only [RedisState.sAdd, RedisState.sMembers]
  by_cases hm : m ∈ (alookup st.sets k).getD []
  · simp [hm]
  · simp [hm, alookup_aset_ne _ _ _ _ hne]

theorem mem_sMembers_sAdd (st : RedisState) (k m x : String) :
    x ∈ (st.sAdd k m).sMembers k ↔ x = m ∨ x ∈ st.sMembers k := by
  simp only [RedisState.sAdd]
  by_cases hm : m ∈ st.sMembers k
  · simp only [hm, if_pos]
    constructor
    · exact fun h => Or.inr h
    · rintro (rfl | h)
      · exact hm
      · exact h
  · simp only [hm, if_neg, Bool.false_eq_true, not_false_iff]
    show x ∈ (alookup (aset st.sets k (st.sMembers k ++ [m])) k).getD [] ↔ _
    rw [alookup_aset_self]
    simp [List.mem_append, or_comm]

/-- Adding to a set never removes members, at any key. -/
theorem mem_sMembers_sAdd_mono (st : RedisState) (k m x key : String)
    (h : x ∈ st.sMembers key) : x ∈ (st.sAdd k m).sMembers key := by
  by_cases hk : key = k
  · subst hk
    exact (mem_sMembers_sAdd st key m x).mpr (Or.inr h)
  · rwa [sMembers_sAdd_ne st k m key hk]

/-- Adding a different member leaves any given membership question unchanged. -/
theorem mem_sMembers_sAdd_ne_member (st : RedisState) (k m x key : String)
    (hx : x ≠ m) : (x ∈ (st.sAdd k m).sMembers key) ↔ x ∈ st.sMembers key := by
  by_cases hk : key = k
  · subst hk
    rw [mem_sMembers_sAdd]
    simp [hx]
  · rw [sMembers_sAdd_ne st k m key hk]

/-- Chunk keys of one `(cfg, userId, projectId)` scope are injective in the id. -/
theorem getChunkKey_inj (cfg : VSConfig) (u p : String) {a b : String}
    (h : getChunkKey cfg u p a = getChunkKey cfg u p b) : a = b := by
  have hd := congrArg String.data h
  simp only [getChunkKey, String.data_append] at hd
  exact String.ext (List.append_cancel_left hd)

/-- A `storeChunks` iteration does not touch the hash of a different chunk id. -/
theorem storeChunkStep_hGetAll_ne (cfg : VSConfig) (u p : String) (now : ℕ)
    (s : RedisState) (c : CodeChunk) (i : String) (hne : c.id ≠ i) :
    (storeChunkStep cfg u p now s c).hGetAll (getChunkKey cfg u p i) =
      s.hGetAll (getChunkKey cfg u p i) := by
  cases hemb : c.embedding with
  | none => simp [storeChunkStep, hemb]
  | some emb =>
    simp only [storeChunkStep, hemb]
    rw [hGetAll_sAdd, hGetAll_hSetChunk_ne]
    intro hkey
    exact hne (getChunkKey_inj cfg u p hkey).symm

/-- The `storeChunks` fold leaves the hash of id `i` untouched when every batch
chunk carrying that id lacks an embedding (it is skipped). -/
theorem storeChunks_hGetAll_of_skipped (cfg : VSConfig) (u p : String) (now : ℕ)
    (cs : List CodeChunk) (s : RedisState) (i : String)
    (hni : ∀ c ∈ cs, c.id = i → c.embedding = none) :
    (cs.foldl (storeChunkStep cfg u p now) s).hGetAll (getChunkKey cfg u p i) =
      s.hGetAll (getChunkKey cfg u p i) := by
  induction cs generalizing s with
  | nil => rfl
  | cons c rest ih =>
    rw [List.foldl_cons, ih _ (fun c' hc' => hni c' (List.mem_cons_of_mem c hc'))]
    by_cases hid : c.id = i
    · have hnone := hni c (List.mem_cons_self c rest) hid
      simp [storeChunkStep, hnone]
    · exact storeChunkStep_hGetAll_ne cfg u p now s c i hid

/-- The `storeChunks` fold never removes index members. -/
theorem storeChunks_mem_mono (cfg : VSConfig) (u p : String) (now : ℕ)
    (cs : List CodeChunk) (s : RedisState) (x key : String)
    (h : x ∈ s.sMembers key) :
    x ∈ (cs.foldl (storeChunkStep cfg u p now) s).sMembers key := by
  induction cs generalizing s with
  | nil => exact h
  | cons c rest ih =>
    rw [List.foldl_cons]
    refine ih _ ?_
    cases hemb : c.embedding with
    | none => simpa [storeChunkStep, hemb] using h
    | some emb =>
      simp only [storeChunkStep, hemb]
      exact mem_sMembers_sAdd_mono _ _ _ _ _ (by simpa [sMembers_hSetChunk] using h)

/-- Index membership of an id is unchanged by the fold when every batch chunk
carrying that id lacks an embedding. -/
theorem storeChunks_mem_iff_of_skipped (cfg : VSConfig) (u p : String) (now : ℕ)
    (cs : List CodeChunk) (s : RedisState) (x key : String)
    (hni : ∀ c ∈ cs, c.id = x → c.embedding = none) :
    (x ∈ (cs.foldl (storeChunkStep cfg u p now) s).sMembers key) ↔
      x ∈ s.sMembers key := by
  induction cs generalizing s with
  | nil => exact Iff.rfl
  | cons c rest ih =>
    rw [List.foldl_cons, ih _ (fun c' hc' => hni c' (List.mem_cons_of_mem c hc'))]
    cases hemb : c.embedding with
    | none => simp [storeChunkStep, hemb]
    | some emb =>
      have hid : c.id ≠ x := by
        intro heq
        have := hni c (List.mem_cons_self c rest) heq
        rw [this] at hemb
        cases hemb
      simp only [storeChunkStep, hemb]
      rw [mem_sMembers_sAdd_ne_member _ _ _ _ _ (Ne.symm hid), sMembers_hSetChunk]

/-- Every embedded chunk of a distinct-id batch ends up stored and registered. -/
theorem storeChunks_stores_embedded (cfg : VSConfig) (u p : String) (now : ℕ)
    (c : CodeChunk) (emb : List ℚ) (hemb : c.embedding = some emb) :
    ∀ (cs : List CodeChunk) (st : RedisState),
      (cs.map (fun x => x.id)).Nodup → c ∈ cs →
      (storeChunks cfg u p cs now st).hGetAll (getChunkKey cfg u p c.id) =
        some (chunkHashOf c emb now) ∧
      c.id ∈ (storeChunks cfg u p cs now st).sMembers (getProjectIndexKey cfg u p) := by
  intro cs
  induction cs with
  | nil => intro st _ hc; cases hc
  | cons d rest ih =>
    intro st hnd hc
    have hnd' : (rest.map (fun x => x.id)).Nodup := (List.nodup_cons.mp (by simpa using hnd)).2
    rcases List.mem_cons.mp hc with heq | htail
    · subst heq
      have hrest : ∀ c' ∈ rest, c'.id = c.id → c'.embedding = none := by
        intro c' hc' heq'
        exfalso
        have hmem : c.id ∈ rest.map (fun x => x.id) := heq' ▸ List.mem_map_of_mem _ hc'
        exact (List.nodup_cons.mp (by simpa using hnd)).1 hmem
      constructor
      · rw [storeChunks, List.foldl_cons,
          storeChunks_hGetAll_of_skipped cfg u p now rest _ c.id hrest]
        simp only [storeChunkStep, hemb]
        rw [hGetAll_sAdd, hGetAll_hSetChunk_self]
      · rw [storeChunks, List.foldl_cons]
        refine storeChunks_mem_mono cfg u p now rest _ _ _ ?_
        simp only [storeChunkStep, hemb]
        exact (mem_sMembers_sAdd _ _ _ _).mpr (Or.inl rfl)
    · have := ih (storeChunkStep cfg u p now st d) hnd' htail
      rw [storeChunks, List.foldl_cons]
      exact this

/-- Claim C7 (amended): `storeChunk` (put) rejects a chunk without an embedding
with an error and otherwise stores its content and vector and registers its id in
the project index; `storeChunks` (putBatch) does not require embeddings — for a
batch with pairwise-distinct ids it stores and registers exactly the chunks that
carry an embedding, and silently skips the rest, leaving their hash and index
membership untouched. -/
theorem C7_put_embedding_discipline (cfg : VSConfig) (u p : String)
    (chunk : CodeChunk) (chunks : List CodeChunk) (now : ℕ) (st : RedisState)
    (hnd : (chunks.map (fun c => c.id)).Nodup) :
    (chunk.embedding = none →
      storeChunk cfg u p chunk now st =
        Except.error ("Code chunk must have an embedding to store")) ∧
    (∀ emb, chunk.embedding = some emb →
      ∃ st', storeChunk cfg u p chunk now st = Except.ok st' ∧
        st'.hGetAll (getChunkKey cfg u p chunk.id) = some (chunkHashOf chunk emb now) ∧
        chunk.id ∈ st'.sMembers (getProjectIndexKey cfg u p)) ∧
    (∀ c ∈ chunks, ∀ emb, c.embedding = some emb →
      (storeChunks cfg u p chunks now st).hGetAll (getChunkKey cfg u p c.id) =
        some (chunkHashOf c emb now) ∧
      c.id ∈ (storeChunks cfg u p chunks now st).sMembers (getProjectIndexKey cfg u p)) ∧
    (∀ c ∈ chunks, c.embedding = none →
      (storeChunks cfg u p chunks now st).hGetAll (getChunkKey cfg u p c.id) =
        st.hGetAll (getChunkKey cfg u p c.id) ∧
      ((c.id ∈ (storeChunks cfg u p chunks now st).sMembers (getProjectIndexKey cfg u p)) ↔
        c.id ∈ st.sMembers (getProjectIndexKey cfg u p))) := by
  refine ⟨?_, ?_, ?_, ?_⟩
  · intro hnone
    simp [storeChunk, hnone]
  · intro emb hemb
    refine ⟨(st.hSetChunk (getChunkKey cfg u p chunk.id) (chunkHashOf chunk emb now)).sAdd
        (getProjectIndexKey cfg u p) chunk.id, ?_, ?_, ?_⟩
    · simp [storeChunk, hemb]
    · rw [hGetAll_sAdd, hGetAll_hSetChunk_self]
    · exact (mem_sMembers_sAdd _ _ _ _).mpr (Or.inl rfl)
  · intro c hc emb hemb
    exact storeChunks_stores_embedded cfg u p now c emb hemb chunks st hnd hc
  · intro c hc hnone
    have hskip : ∀ c' ∈ chunks, c'.id = c.id → c'.embedding = none := by
      intro c' hc' heq'
      have hcc : c' = c := List.inj_on_of_nodup_map hnd hc' hc heq'
      rw [hcc]
      exact hnone
    exact ⟨storeChunks_hGetAll_of_skipped cfg u p now chunks st c.id hskip,
      storeChunks_mem_iff_of_skipped cfg u p now chunks st c.id _ hskip⟩

/-- Claim C7 (corrected), counterexample: a batch holding one chunk without an
embedding is accepted by `storeChunks` without any error, and the chunk is
neither stored nor registered — `putBatch` does not require every chunk to carry
an embedding, and not every chunk passed is stored. -/
theorem C7_counterexample :
    storeChunks defaultVSConfig "u" "p" [noEmbChunk] 0 emptyState = emptyState ∧
    (storeChunks defaultVSConfig "u" "p" [noEmbChunk] 0 emptyState).hGetAll
      (getChunkKey defaultVSConfig "u" "p" noEmbChunk.id) = none ∧
    noEmbChunk.id ∉ (storeChunks defaultVSConfig "u" "p" [noEmbChunk] 0 emptyState).sMembers
      (getProjectIndexKey defaultVSConfig "u" "p") := by
  refine ⟨rfl, rfl, ?_⟩
  intro h
  cases h

/-- Claim C7 witness: `storeChunk` rejects the embedding-less chunk, while a
mixed batch stores and registers exactly its embedded chunk and skips the other. -/
theorem C7_put_embedding_discipline_witness :
    storeChunk defaultVSConfig "u" "p" noEmbChunk 0 emptyState =
      Except.error ("Code chunk must have an embedding to store") ∧
    (storeChunks defaultVSConfig "u" "p" [embChunk, noEmbChunk] 0 emptyState).hGetAll
        (getChunkKey defaultVSConfig "u" "p" embChunk.id) =
      some (chunkHashOf embChunk [1] 0) ∧
    embChunk.id ∈ (storeChunks defaultVSConfig "u" "p" [embChunk, noEmbChunk] 0
        emptyState).sMembers (getProjectIndexKey defaultVSConfig "u" "p") ∧
    (storeChunks defaultVSConfig "u" "p" [embChunk, noEmbChunk] 0 emptyState).hGetAll
        (getChunkKey defaultVSConfig "u" "p" noEmbChunk.id) = none := by
  have hnd : (([embChunk, noEmbChunk].map (fun c => c.id))).Nodup := by decide
  refine ⟨(C7_put_embedding_discipline defaultVSConfig "u" "p" noEmbChunk
      [embChunk, noEmbChunk] 0 emptyState hnd).1 rfl, ?_, ?_, ?_⟩
  · exact ((C7_put_embedding_discipline defaultVSConfig "u" "p" embChunk
      [embChunk, noEmbChunk] 0 emptyState hnd).2.2.1 embChunk (by decide) [1] rfl).1
  · exact ((C7_put_embedding_discipline defaultVSConfig "u" "p" embChunk
      [embChunk, noEmbChunk] 0 emptyState hnd).2.2.1 embChunk (by decide) [1] rfl).2
  · exact ((C7_put_embedding_discipline defaultVSConfig "u" "p" embChunk
      [embChunk, noEmbChunk] 0 emptyState hnd).2.2.2 noEmbChunk (by decide) rfl).1.trans rfl

/-- Spacing invariant of the limiter: over a time-ordered trace, consecutive
dispatches are at least `intervalMs` apart, and every dispatch comes at least
`intervalMs` after the `lastRunAt` of the starting state. -/
theorem rlRun_spacing (intervalMs : ℕ) (trace : List (ℕ × RLEvent)) :
    ∀ st : RLState, trace.Pairwise (fun a b => a.1 ≤ b.1) →
    (∀ t0, st.lastRunAt = some t0 → ∀ e ∈ trace, t0 ≤ e.1) →
    (rlRun intervalMs trace st).2.Chain' (fun d1 d2 => d1.1 + intervalMs ≤ d2.1) ∧
    (∀ d ∈ (rlRun intervalMs trace st).2, ∀ t0, st.lastRunAt = some t0 →
      t0 + intervalMs ≤ d.1) := by
  induction trace with
  | nil => exact fun st _ _ => ⟨List.chain'_nil, fun d hd => by cases hd⟩
  | cons ev rest ih =>
    rintro ⟨q, lr, run⟩ htimes hlast
    obtain ⟨hhead, htail⟩ := List.pairwise_cons.mp htimes
    obtain ⟨t, e⟩ := ev
    cases e with
    | schedule id =>
      have hstep : rlRun intervalMs ((t, RLEvent.schedule id) :: rest)
          ⟨q, lr, run⟩ =
          ((rlRun intervalMs rest ⟨q ++ [id], lr, true⟩).1,
           (rlRun intervalMs rest ⟨q ++ [id], lr, true⟩).2) := by
        simp [rlRun, rlStep]
      rw [hstep]
      exact ih _ htail (fun t0 h0 e' he' => hlast t0 h0 e' (List.mem_cons_of_mem _ he'))
    | tick =>
      cases run with
      | false =>
        have hstep : rlRun intervalMs ((t, RLEvent.tick) :: rest) ⟨q, lr, false⟩ =
            ((rlRun intervalMs rest ⟨q, lr, false⟩).1,
             (rlRun intervalMs rest ⟨q, lr, false⟩).2) := by
          simp [rlRun, rlStep]
        rw [hstep]
        exact ih _ htail (fun t0 h0 e' he' => hlast t0 h0 e' (List.mem_cons_of_mem _ he'))
      | true =>
        cases q with
        | nil =>
          have hstep : rlRun intervalMs ((t, RLEvent.tick) :: rest) ⟨[], lr, true⟩ =
              ((rlRun intervalMs rest ⟨[], lr, false⟩).1,
               (rlRun intervalMs rest ⟨[], lr, false⟩).2) := by
            simp [rlRun, rlStep]
          rw [hstep]
          exact ih _ htail (fun t0 h0 e' he' => hlast t0 h0 e' (List.mem_cons_of_mem _ he'))
        | cons next qrest =>
          cases lr with
          | some t0 =>
            by_cases hwait : t - t0 < intervalMs
            · have hstep : rlRun intervalMs ((t, RLEvent.tick) :: rest)
                  ⟨next :: qrest, some t0, true⟩ =
                  ((rlRun intervalMs rest ⟨next :: qrest, some t0, true⟩).1,
                   (rlRun intervalMs rest ⟨next :: qrest, some t0, true⟩).2) := by
                simp [rlRun, rlStep, hwait]
              rw [hstep]
              exact ih _ htail (fun t1 h1 e' he' => hlast t1 h1 e' (List.mem_cons_of_mem _ he'))
            · have ht0t : t0 ≤ t :=
                hlast t0 rfl (t, RLEvent.tick) (List.mem_cons_self _ _)
              have hgap : t0 + intervalMs ≤ t := by omega
              have hstep : rlRun intervalMs ((t, RLEvent.tick) :: rest)
                  ⟨next :: qrest, some t0, true⟩ =
                  ((rlRun intervalMs rest ⟨qrest, some t, true⟩).1,
                   (t, next) :: (rlRun intervalMs rest ⟨qrest, some t, true⟩).2) := by
                simp [rlRun, rlStep, hwait]
              rw [hstep]
              have hrec := ih ⟨qrest, some t, true⟩ htail (fun t1 h1 e' he' => by
                cases h1
                exact hhead e' he')
              refine ⟨?_, ?_⟩
              · refine List.chain'_cons'.mpr ⟨?_, hrec.1⟩
                intro d2 hd2
                exact hrec.2 d2 (List.mem_of_mem_head? hd2) t rfl
              · intro d hd t1 h1
                cases h1
                rcases List.mem_cons.mp hd with rfl | hd'
                · exact hgap
                · have := hrec.2 d hd' t rfl
                  omega
          | none =>
            have hstep : rlRun intervalMs ((t, RLEvent.tick) :: rest)
                ⟨next :: qrest, none, true⟩ =
                ((rlRun intervalMs rest ⟨qrest, some t, true⟩).1,
                 (t, next) :: (rlRun intervalMs rest ⟨qrest, some t, true⟩).2) := by
              simp [rlRun, rlStep]
            rw [hstep]
            have hrec := ih ⟨qrest, some t, true⟩ htail (fun t1 h1 e' he' => by
              cases h1
              exact hhead e' he')
            refine ⟨?_, ?_⟩
            · refine List.chain'_cons'.mpr ⟨?_, hrec.1⟩
              intro d2 hd2
              exact hrec.2 d2 (List.mem_of_mem_head? hd2) t rfl
            · intro d hd t1 h1
              cases h1

/-- FIFO invariant of the limiter: the dispatched ids followed by the remaining
queue are exactly the starting queue followed by the scheduled ids, in order. -/
theorem rlRun_fifo (intervalMs : ℕ) (trace : List (ℕ × RLEvent)) (st : RLState) :
    (rlRun intervalMs trace st).2.map Prod.snd ++ (rlRun intervalMs trace st).1.queue =
      st.queue ++ scheduledIds trace := by
  induction trace generalizing st with
  | nil => simp [rlRun, scheduledIds]
  | cons ev rest ih =>
    obtain ⟨t, e⟩ := ev
    cases e with
    | schedule id =>
      have := ih { st with queue := st.queue ++ [id], isRunning := true }
      simp only [rlRun, rlStep, Option.toList] at this ⊢
      simp only [this, scheduledIds, List.nil_append, List.append_assoc,
        List.singleton_append]
    | tick =>
      by_cases hrun : st.isRunning = false
      · have := ih st
        simp only [rlRun, rlStep, hrun, if_pos, Option.toList] at this ⊢
        simp [this, scheduledIds]
      · cases hq : st.queue with
        | nil =>
          have := ih { st with isRunning := false }
          simp only [rlRun, rlStep, hrun, hq, Option.toList] at this ⊢
          simp [this, scheduledIds, hq]
        | cons next qrest =>
          cases hlr : st.lastRunAt with
          | some t0 =>
            by_cases hwait : t - t0 < intervalMs
            · have := ih st
              simp only [rlRun, rlStep, hrun, hq, hlr, hwait, Option.toList] at this ⊢
              simp [this, scheduledIds, hq]
            · have := ih { queue := qrest, lastRunAt := some t, isRunning := true }
              simp only [rlRun, rlStep, hrun, hq, hlr, hwait, Option.toList] at this ⊢
              simp [this, scheduledIds, hq]
          | none =>
            have := ih { queue := qrest, lastRunAt := some t, isRunning := true }
            simp only [rlRun, rlStep, hrun, hq, hlr, Option.toList] at this ⊢
            simp [this, scheduledIds, hq]

/-- Claim C3 (amended): over any time-ordered event trace from a fresh limiter,
consecutive dispatch start times are separated by at least
`intervalMs = ⌊60000 / requestsPerMinute⌋` milliseconds (the floor — not the
exact quotient `60000/requestsPerMinute` — though the two agree whenever
`requestsPerMinute` divides 60000, e.g. at the default 20), and tasks begin
dispatch in exactly their FIFO submission order: the dispatched ids are a
prefix of the scheduled ids. -/
theorem C3_rate_limiter_spacing_fifo (intervalMs : ℕ) (trace : List (ℕ × RLEvent))
    (htimes : trace.Pairwise (fun a b => a.1 ≤ b.1)) :
    (rlRun intervalMs trace initRL).2.Chain' (fun d1 d2 => d1.1 + intervalMs ≤ d2.1) ∧
    (rlRun intervalMs trace initRL).2.map Prod.snd =
      (scheduledIds trace).take ((rlRun intervalMs trace initRL).2.map Prod.snd).length := by
  constructor
  · exact (rlRun_spacing intervalMs trace initRL htimes
      (fun t0 h0 => by cases h0)).1
  · have hfifo := rlRun_fifo intervalMs trace initRL
    simp only [initRL, List.nil_append] at hfifo ⊢
    rw [← hfifo, List.take_left]

/-- Claim C3 witness: a four-event trace at a 3000 ms interval dispatches the
two scheduled tasks in order, 3000 ms apart. -/
theorem C3_rate_limiter_spacing_fifo_witness :
    (rlRun 3000 [(0, RLEvent.schedule 5), (0, RLEvent.tick), (3000, RLEvent.schedule 6),
        (3000, RLEvent.tick)] initRL).2.Chain' (fun d1 d2 => d1.1 + 3000 ≤ d2.1) ∧
    (rlRun 3000 [(0, RLEvent.schedule 5), (0, RLEvent.tick), (3000, RLEvent.schedule 6),
        (3000, RLEvent.tick)] initRL).2.map Prod.snd =
      (scheduledIds [(0, RLEvent.schedule 5), (0, RLEvent.tick), (3000, RLEvent.schedule 6),
        (3000, RLEvent.tick)]).take
        ((rlRun 3000 [(0, RLEvent.schedule 5), (0, RLEvent.tick), (3000, RLEvent.schedule 6),
          (3000, RLEvent.tick)] initRL).2.map Prod.snd).length :=
  C3_rate_limiter_spacing_fifo 3000
    [(0, RLEvent.schedule 5), (0, RLEvent.tick), (3000, RLEvent.schedule 6),
     (3000, RLEvent.tick)] (by decide)

/-- Claim C3 (corrected), counterexample: at 7 requests per minute the
constructor computes `intervalMs = ⌊60000/7⌋ = 8571`, and the limiter admits a
trace whose two dispatches are exactly 8571 ms apart — strictly less than the
claimed bound `60000/7 = 8571.42…` ms. -/
theorem C3_counterexample :
    (mkLimiter none (some { requestsPerMinute := some 7, name := none })).intervalMs = 8571 ∧
    (rlRun 8571 [(0, RLEvent.schedule 1), (0, RLEvent.schedule 2), (0, RLEvent.tick),
      (8571, RLEvent.tick)] initRL).2 = [(0, 1), (8571, 2)] ∧
    (8571 : ℚ) < 60000 / 7 := by
  refine ⟨rfl, rfl, by norm_num⟩

/-! Numeric lemmas for the similarity claims. -/

theorem sqMagnitude_nonneg (a : List ℚ) : 0 ≤ sqMagnitude a := by
  induction a with
  | nil => simp [sqMagnitude]
  | cons x xs ih =>
    have hx : 0 ≤ x * x := mul_self_nonneg x
    have : sqMagnitude (x :: xs) = x * x + sqMagnitude xs := by
      simp [sqMagnitude]
    rw [this]
    exact add_nonneg hx ih

theorem sqMagnitude_pos (a : List ℚ) (h : sqMagnitude a ≠ 0) : 0 < sqMagnitude a :=
  lt_of_le_of_ne (sqMagnitude_nonneg a) (Ne.symm h)

/-- Inner step of the Cauchy–Schwarz induction. -/
theorem cs_step (x y A B D : ℚ) (hA : 0 ≤ A) (hB : 0 ≤ B) (hD : D * D ≤ A * B) :
    2 * (x * y) * D ≤ x * x * B + A * (y * y) := by
  rcases eq_or_lt_of_le hB with hB0 | hBpos
  · have hD0 : D = 0 := by nlinarith [mul_self_nonneg D]
    subst hD0
    nlinarith [mul_nonneg hA (mul_self_nonneg y), mul_self_nonneg x]
  · have key : 0 ≤ B * (x * x * B + A * (y * y) - 2 * (x * y) * D) := by
      nlinarith [sq_nonneg (x * B - y * D), mul_nonneg (mul_self_nonneg y) (sub_nonneg.mpr hD)]
    nlinarith [key, hBpos]

/-- Cauchy–Schwarz for the source's dot product and squared magnitudes. -/
theorem dotProduct_sq_le (a b : List ℚ) :
    dotProduct a b * dotProduct a b ≤ sqMagnitude a * sqMagnitude b := by
  induction a generalizing b with
  | nil =>
    simp [dotProduct, sqMagnitude]
  | cons x xs ih =>
    cases b with
    | nil =>
      simp only [dotProduct, List.zipWith_nil_right, List.sum_nil, mul_zero]
      exact mul_nonneg (sqMagnitude_nonneg (x :: xs)) (sqMagnitude_nonneg [])
    | cons y ys =>
      have hd : dotProduct (x :: xs) (y :: ys) = x * y + dotProduct xs ys := by
        simp [dotProduct]
      have hA : sqMagnitude (x :: xs) = x * x + sqMagnitude xs := by
        simp [sqMagnitude]
      have hB : sqMagnitude (y :: ys) = y * y + sqMagnitude ys := by
        simp [sqMagnitude]
      rw [hd, hA, hB]
      have hstep := cs_step x y (sqMagnitude xs) (sqMagnitude ys) (dotProduct xs ys)
        (sqMagnitude_nonneg xs) (sqMagnitude_nonneg ys) (ih ys)
      nlinarith [ih ys, hstep]

/-- The real similarity value of a score with positive squared magnitudes lies in
`[-1, 1]` (Cauchy–Schwarz). -/
theorem simScore_val_bound (s : SimScore) (hA : 0 < s.sqA) (hB : 0 < s.sqB) :
    -1 ≤ s.val ∧ s.val ≤ 1 := by
  have hA' : (0 : ℝ) < ((s.sqA : ℚ) : ℝ) := by exact_mod_cast hA
  have hB' : (0 : ℝ) < ((s.sqB : ℚ) : ℝ) := by exact_mod_cast hB
  have hm : 0 < Real.sqrt ((s.sqA : ℚ) : ℝ) * Real.sqrt ((s.sqB : ℚ) : ℝ) :=
    mul_pos (Real.sqrt_pos.mpr hA') (Real.sqrt_pos.mpr hB')
  have hcs : ((s.dot : ℚ) : ℝ) * ((s.dot : ℚ) : ℝ) ≤
      ((s.sqA : ℚ) : ℝ) * ((s.sqB : ℚ) : ℝ) := by
    exact_mod_cast dotProduct_sq_le s.qa s.qb
  have habs : |((s.dot : ℚ) : ℝ)| ≤
      Real.sqrt ((s.sqA : ℚ) : ℝ) * Real.sqrt ((s.sqB : ℚ) : ℝ) := by
    rw [← Real.sqrt_mul_self (abs_nonneg ((s.dot : ℚ) : ℝ)), ← Real.sqrt_mul hA'.le]
    apply Real.sqrt_le_sqrt
    calc |((s.dot : ℚ) : ℝ)| * |((s.dot : ℚ) : ℝ)|
        = ((s.dot : ℚ) : ℝ) * ((s.dot : ℚ) : ℝ) := by rw [abs_mul_abs_self]
      _ ≤ _ := hcs
  constructor
  · rw [SimScore.val, le_div_iff₀ hm]
    have := neg_abs_le ((s.dot : ℚ) : ℝ)
    nlinarith [habs]
  · rw [SimScore.val, div_le_one hm]
    exact le_trans (le_abs_self _) habs

/-- The decidable comparator agrees with the real order on scores with positive
squared magnitudes. -/
theorem leB_val_le {s t : SimScore} (hsA : 0 < s.sqA) (hsB : 0 < s.sqB)
    (htA : 0 < t.sqA) (htB : 0 < t.sqB) (h : s.leB t = true) : s.val ≤ t.val := by
  have hsA' : (0 : ℝ) < ((s.sqA : ℚ) : ℝ) := by exact_mod_cast hsA
  have hsB' : (0 : ℝ) < ((s.sqB : ℚ) : ℝ) := by exact_mod_cast hsB
  have htA' : (0 : ℝ) < ((t.sqA : ℚ) : ℝ) := by exact_mod_cast htA
  have htB' : (0 : ℝ) < ((t.sqB : ℚ) : ℝ) := by exact_mod_cast htB
  have hms : 0 < Real.sqrt ((s.sqA : ℚ) : ℝ) * Real.sqrt ((s.sqB : ℚ) : ℝ) :=
    mul_pos (Real.sqrt_pos.mpr hsA') (Real.sqrt_pos.mpr hsB')
  have hmt : 0 < Real.sqrt ((t.sqA : ℚ) : ℝ) * Real.sqrt ((t.sqB : ℚ) : ℝ) :=
    mul_pos (Real.sqrt_pos.mpr htA') (Real.sqrt_pos.mpr htB')
  have hms2 : (Real.sqrt ((s.sqA : ℚ) : ℝ) * Real.sqrt ((s.sqB : ℚ) : ℝ)) *
      (Real.sqrt ((s.sqA : ℚ) : ℝ) * Real.sqrt ((s.sqB : ℚ) : ℝ)) =
      ((s.sqA : ℚ) : ℝ) * ((s.sqB : ℚ) : ℝ) := by
    rw [mul_mul_mul_comm, Real.mul_self_sqrt hsA'.le, Real.mul_self_sqrt hsB'.le]
  have hmt2 : (Real.sqrt ((t.sqA : ℚ) : ℝ) * Real.sqrt ((t.sqB : ℚ) : ℝ)) *
      (Real.sqrt ((t.sqA : ℚ) : ℝ) * Real.sqrt ((t.sqB : ℚ) : ℝ)) =
      ((t.sqA : ℚ) : ℝ) * ((t.sqB : ℚ) : ℝ) := by
    rw [mul_mul_mul_comm, Real.mul_self_sqrt htA'.le, Real.mul_self_sqrt htB'.le]
  rw [SimScore.val, SimScore.val, div_le_div_iff₀ hms hmt]
  rw [SimScore.leB] at h
  by_cases h1 : s.dot ≤ 0
  · rw [if_pos h1] at h
    by_cases h2 : (0 : ℚ) ≤ t.dot
    · have hs0 : ((s.dot : ℚ) : ℝ) ≤ 0 := by exact_mod_cast h1
      have ht0 : (0 : ℝ) ≤ ((t.dot : ℚ) : ℝ) := by exact_mod_cast h2
      calc ((s.dot : ℚ) : ℝ) * (Real.sqrt ((t.sqA : ℚ) : ℝ) * Real.sqrt ((t.sqB : ℚ) : ℝ))
          ≤ 0 := mul_nonpos_of_nonpos_of_nonneg hs0 hmt.le
        _ ≤ ((t.dot : ℚ) : ℝ) * (Real.sqrt ((s.sqA : ℚ) : ℝ) * Real.sqrt ((s.sqB : ℚ) : ℝ)) :=
          mul_nonneg ht0 hms.le
    · rw [if_neg h2] at h
      have hq : t.dot * t.dot * (s.sqA * s.sqB) ≤ s.dot * s.dot * (t.sqA * t.sqB) :=
        of_decide_eq_true h
      have hq' : ((t.dot : ℚ) : ℝ) * ((t.dot : ℚ) : ℝ) * (((s.sqA : ℚ) : ℝ) * ((s.sqB : ℚ) : ℝ)) ≤
          ((s.dot : ℚ) : ℝ) * ((s.dot : ℚ) : ℝ) * (((t.sqA : ℚ) : ℝ) * ((t.sqB : ℚ) : ℝ)) := by
        exact_mod_cast hq
      have hs0 : ((s.dot : ℚ) : ℝ) ≤ 0 := by exact_mod_cast h1
      have ht0 : ((t.dot : ℚ) : ℝ) < 0 := by exact_mod_cast not_le.mp h2
      nlinarith [hms, hmt, hms2, hmt2, hq',
        mul_nonpos_of_nonpos_of_nonneg hs0 hmt.le,
        mul_pos hms hmt]
  · rw [if_neg h1] at h
    by_cases h2 : t.dot ≤ 0
    · rw [if_pos h2] at h
      cases h
    · rw [if_neg h2] at h
      have hq : s.dot * s.dot * (t.sqA * t.sqB) ≤ t.dot * t.dot * (s.sqA * s.sqB) :=
        of_decide_eq_true h
      have hq' : ((s.dot : ℚ) : ℝ) * ((s.dot : ℚ) : ℝ) * (((t.sqA : ℚ) : ℝ) * ((t.sqB : ℚ) : ℝ)) ≤
          ((t.dot : ℚ) : ℝ) * ((t.dot : ℚ) : ℝ) * (((s.sqA : ℚ) : ℝ) * ((s.sqB : ℚ) : ℝ)) := by
        exact_mod_cast hq
      have hs0 : (0 : ℝ) < ((s.dot : ℚ) : ℝ) := by exact_mod_cast not_le.mp h1
      have ht0 : (0 : ℝ) < ((t.dot : ℚ) : ℝ) := by exact_mod_cast not_le.mp h2
      nlinarith [hms, hmt, hms2, hmt2, hq', mul_pos hs0 hmt, mul_pos ht0 hms,
        mul_pos hms hmt]

/-- The comparator is total. -/
theorem leB_total (s t : SimScore) : s.leB t = true ∨ t.leB s = true := by
  rw [SimScore.leB, SimScore.leB]
  by_cases h1 : s.dot ≤ 0
  · by_cases h2 : (0 : ℚ) ≤ t.dot
    · left
      rw [if_pos h1, if_pos h2]
    · rcases le_total (t.dot * t.dot * (s.sqA * s.sqB)) (s.dot * s.dot * (t.sqA * t.sqB)) with
        hle | hle
      · left
        rw [if_pos h1, if_neg h2]
        exact decide_eq_true hle
      · right
        have h2' : t.dot ≤ 0 := le_of_lt (not_le.mp h2)
        by_cases h3 : (0 : ℚ) ≤ s.dot
        · rw [if_pos h2', if_pos h3]
        · rw [if_pos h2', if_neg h3]
          exact decide_eq_true hle
  · by_cases h2 : t.dot ≤ 0
    · right
      rw [if_pos h2, if_pos (le_of_lt (not_le.mp h1))]
    · rcases le_total (s.dot * s.dot * (t.sqA * t.sqB)) (t.dot * t.dot * (s.sqA * s.sqB)) with
        hle | hle
      · left
        rw [if_neg h1, if_neg h2]
        exact decide_eq_true hle
      · right
        rw [if_neg h2, if_neg h1]
        exact decide_eq_true hle

/-! Sorting lemmas. -/

theorem mem_insertDesc {α : Type} (r : α → α → Bool) (x y : α) (l : List α) :
    y ∈ insertDesc r x l ↔ y = x ∨ y ∈ l := by
  induction l with
  | nil => simp [insertDesc]
  | cons z zs ih =>
    simp only [insertDesc]
    by_cases hc : r x z && !(r z x)
    · simp [hc]
    · simp only [hc, if_neg, Bool.false_eq_true, not_false_iff, List.mem_cons, ih]
      tauto

theorem length_insertDesc {α : Type} (r : α → α → Bool) (x : α) (l : List α) :
    (insertDesc r x l).length = l.length + 1 := by
  induction l with
  | nil => rfl
  | cons z zs ih =>
    simp only [insertDesc]
    by_cases hc : r x z && !(r z x)
    · simp [hc]
    · simp [hc, ih]

theorem length_sortDesc {α : Type} (r : α → α → Bool) (l : List α) :
    (sortDesc r l).length = l.length := by
  induction l with
  | nil => rfl
  | cons x xs ih => simp [sortDesc, length_insertDesc, ih]

theorem mem_sortDesc {α : Type} (r : α → α → Bool) (y : α) (l : List α) :
    y ∈ sortDesc r l ↔ y ∈ l := by
  induction l with
  | nil => exact Iff.rfl
  | cons x xs ih => simp [sortDesc, mem_insertDesc, ih]

/-- Inserting into a list sorted by non-increasing real score keeps it sorted,
provided every score involved has positive squared magnitudes. -/
theorem insertDesc_pairwise (x : SearchResult) (l : List SearchResult)
    (hx : 0 < x.score.sqA ∧ 0 < x.score.sqB)
    (hl : ∀ z ∈ l, 0 < z.score.sqA ∧ 0 < z.score.sqB)
    (hp : l.Pairwise (fun a b => b.score.val ≤ a.score.val)) :
    (insertDesc resGE x l).Pairwise (fun a b => b.score.val ≤ a.score.val) := by
  induction l with
  | nil => simp [insertDesc]
  | cons y ys ih =>
    obtain ⟨hyfirst, hytail⟩ := List.pairwise_cons.mp hp
    have hy := hl y (List.mem_cons_self _ _)
    simp only [insertDesc]
    by_cases hc : resGE x y && !(resGE y x)
    · rw [if_pos hc]
      have hxy : y.score.val ≤ x.score.val := by
        have hr : resGE x y = true := by
          have h' := hc
          rw [Bool.and_eq_true] at h'
          exact h'.1
        exact leB_val_le hy.1 hy.2 hx.1 hx.2 hr
      refine List.pairwise_cons.mpr ⟨?_, hp⟩
      intro z hz
      rcases List.mem_cons.mp hz with rfl | hz'
      · exact hxy
      · exact le_trans (hyfirst z hz') hxy
    · rw [if_neg hc]
      rw [Bool.and_eq_true, not_and] at hc
      have hyx : x.score.val ≤ y.score.val := by
        rcases leB_total x.score y.score with h1 | h2
        · exact leB_val_le hx.1 hx.2 hy.1 hy.2 h1
        · have h3 := hc h2
          simp only [Bool.not_eq_true, Bool.not_eq_false'] at h3
          exact leB_val_le hx.1 hx.2 hy.1 hy.2 h3
      refine List.pairwise_cons.mpr ⟨?_, ih (fun z hz => hl z (List.mem_cons_of_mem _ hz)) hytail⟩
      intro z hz
      rcases (mem_insertDesc resGE x z ys).mp hz with rfl | hz'
      · exact hyx
      · exact hyfirst z hz'

/-- The sort of `searchSimilar` produces a list sorted by non-increasing real
similarity, provided every score has positive squared magnitudes. -/
theorem sortDesc_pairwise (l : List SearchResult)
    (hl : ∀ z ∈ l, 0 < z.score.sqA ∧ 0 < z.score.sqB) :
    (sortDesc resGE l).Pairwise (fun a b => b.score.val ≤ a.score.val) := by
  induction l with
  | nil => exact List.Pairwise.nil
  | cons x xs ih =>
    have hx := hl x (List.mem_cons_self _ _)
    have htail : ∀ z ∈ xs, 0 < z.score.sqA ∧ 0 < z.score.sqB :=
      fun z hz => hl z (List.mem_cons_of_mem _ hz)
    exact insertDesc_pairwise x (sortDesc resGE xs) hx
      (fun z hz => htail z ((mem_sortDesc resGE z xs).mp hz)) (ih htail)

/-- The scoring loop succeeds on valid vectors, returns one result per id with a
surviving hash, and every produced score has positive squared magnitudes. -/
theorem collectScored_ok (cfg : VSConfig) (u p : String) (q : List ℚ)
    (st : RedisState) (hq : sqMagnitude q ≠ 0) :
    ∀ ids : List String,
      (∀ cid ∈ ids, chunkScoreOK q (st.hGetAll (getChunkKey cfg u p cid)) = true) →
      ∃ l, collectScored cfg u p q st ids = Except.ok l ∧
        l.length = ids.countP (fun cid => (st.hGetAll (getChunkKey cfg u p cid)).isSome) ∧
        ∀ r ∈ l, 0 < r.score.sqA ∧ 0 < r.score.sqB := by
  intro ids
  induction ids with
  | nil => exact fun _ => ⟨[], rfl, by simp, by simp⟩
  | cons cid rest ih =>
    intro hok
    obtain ⟨l, hl, hlen, hall⟩ := ih (fun c hc => hok c (List.mem_cons_of_mem _ hc))
    cases hh : st.hGetAll (getChunkKey cfg u p cid) with
    | none =>
      refine ⟨l, ?_, ?_, hall⟩
      · simp [collectScored, hh, hl]
      · simp [List.countP_cons, hh, hlen]
    | some h =>
      have hco := hok cid (List.mem_cons_self _ _)
      rw [hh] at hco
      simp only [chunkScoreOK, Bool.and_eq_true, decide_eq_true_eq, bne_iff_ne] at hco
      have hcos : cosineSimilarity q h.embedding =
          Except.ok { qa := q, qb := h.embedding } := by
        simp [cosineSimilarity, hco.1]
      refine ⟨resultOfHash h { qa := q, qb := h.embedding } :: l, ?_, ?_, ?_⟩
      · simp [collectScored, hh, hcos, hl]
      · simp [List.countP_cons, hh, hlen]
      · intro r hr
        rcases List.mem_cons.mp hr with rfl | hr'
        · exact ⟨sqMagnitude_pos q hq, sqMagnitude_pos h.embedding hco.2⟩
        · exact hall r hr'

/-- Claim C2 (amended): on a store where the query and every surviving stored
embedding are valid — dimensions matching the query and nonzero squared
magnitude — `searchSimilar` succeeds and returns
`min(number of scored chunks, min(k, maxResults))` results (so at most
`min(k, maxResults)`, with `maxResults` defaulting to 20 — not "exactly `k`"
whenever at least `k` chunks are indexed), sorted by non-increasing real cosine
similarity. -/
theorem C2_search_ranked_topk (cfg : VSConfig) (u p : String) (q : List ℚ)
    (limit : ℕ) (st : RedisState) (hq : sqMagnitude q ≠ 0)
    (hok : ∀ cid ∈ st.sMembers (getProjectIndexKey cfg u p),
      chunkScoreOK q (st.hGetAll (getChunkKey cfg u p cid)) = true) :
    ∃ l, searchSimilar cfg u p q limit st = Except.ok l ∧
      l.length = Nat.min ((st.sMembers (getProjectIndexKey cfg u p)).countP
          (fun cid => (st.hGetAll (getChunkKey cfg u p cid)).isSome))
        (Nat.min limit cfg.maxResults) ∧
      l.Pairwise (fun a b => b.score.val ≤ a.score.val) := by
  by_cases hempty : (st.sMembers (getProjectIndexKey cfg u p)).isEmpty
  · refine ⟨[], ?_, ?_, List.Pairwise.nil⟩
    · rw [searchSimilar]
      simp [hempty]
    · rw [List.isEmpty_iff.mp hempty]
      simp
  · obtain ⟨l, hl, hlen, hall⟩ := collectScored_ok cfg u p q st hq
      (st.sMembers (getProjectIndexKey cfg u p)) hok
    refine ⟨(sortDesc resGE l).take (Nat.min limit cfg.maxResults), ?_, ?_, ?_⟩
    · rw [searchSimilar]
      simp [hempty, hl]
    · rw [List.length_take, length_sortDesc, hlen]
      simp [Nat.min_comm]
    · exact (sortDesc_pairwise l hall).sublist (List.take_sublist _ _)

set_option maxRecDepth 100000 in
unseal Rat.mul Rat.add in
/-- Claim C2 witness: three valid two-dimensional chunks, query `[1,0]`, `k = 2`:
two results, sorted by non-increasing similarity. -/
theorem C2_search_ranked_topk_witness :
    ∃ l, searchSimilar defaultVSConfig "u" "p" [1, 0] 2 exState3 = Except.ok l ∧
      l.length = Nat.min ((exState3.sMembers (getProjectIndexKey defaultVSConfig "u" "p")).countP
          (fun cid => (exState3.hGetAll (getChunkKey defaultVSConfig "u" "p" cid)).isSome))
        (Nat.min 2 defaultVSConfig.maxResults) ∧
      l.Pairwise (fun a b => b.score.val ≤ a.score.val) :=
  C2_search_ranked_topk defaultVSConfig "u" "p" [1, 0] 2 exState3
    (by decide) (by decide)

set_option maxRecDepth 1000000 in
unseal Rat.mul Rat.add in
/-- Claim C2 (corrected), counterexample: a project with 21 embedded chunks and
`k = 21` returns only 20 results — `searchSimilar` caps the result count at
`config.maxResults` (default 20), so "exactly `k` results whenever the index
holds at least `k` embedded chunks" fails for `k > 20`. -/
theorem C2_counterexample :
    (cexState.sMembers (getProjectIndexKey defaultVSConfig "u" "p")).countP
      (fun cid => (cexState.hGetAll (getChunkKey defaultVSConfig "u" "p" cid)).isSome) = 21 ∧
    (match searchSimilar defaultVSConfig "u" "p" [1] 21 cexState with
      | Except.ok l => l.length
      | Except.error _ => 0) = 20 := by
  exact ⟨by decide, by decide⟩

/-- Claim C8 (amended): for equal-dimension vectors whose squared magnitudes are
both nonzero, the computed similarity is a real number equal to
`dot(a,b) / (√(Σa²) · √(Σb²))` and lies in `[-1, 1]`.  (Without the nonzero
proviso the float is `NaN` or `±∞`, see the counterexample.) -/
theorem C8_cosine_similarity_range (a b : List ℚ) (hlen : a.length = b.length)
    (ha : sqMagnitude a ≠ 0) (hb : sqMagnitude b ≠ 0) :
    ∃ s, cosineSimilarity a b = Except.ok s ∧
      s.valJS = some s.val ∧
      s.val = ((dotProduct a b : ℚ) : ℝ) /
        (Real.sqrt ((sqMagnitude a : ℚ) : ℝ) * Real.sqrt ((sqMagnitude b : ℚ) : ℝ)) ∧
      -1 ≤ s.val ∧ s.val ≤ 1 := by
  have hA : (0 : ℚ) < sqMagnitude a := sqMagnitude_pos a ha
  have hB : (0 : ℚ) < sqMagnitude b := sqMagnitude_pos b hb
  refine ⟨{ qa := a, qb := b }, ?_, ?_, rfl, ?_⟩
  · simp [cosineSimilarity, hlen]
  · rw [SimScore.valJS, if_neg]
    show ¬ sqMagnitude a * sqMagnitude b = 0
    exact mul_ne_zero ha hb
  · exact simScore_val_bound { qa := a, qb := b } hA hB

unseal Rat.mul Rat.add in
/-- Claim C8 witness: the similarity of `[3,4]` and `[5,0]` is a real number in
`[-1, 1]` equal to `15 / (√25 · √25)`. -/
theorem C8_cosine_similarity_range_witness :
    ∃ s, cosineSimilarity [(3 : ℚ), 4] [5, 0] = Except.ok s ∧
      s.valJS = some s.val ∧
      s.val = ((dotProduct [(3 : ℚ), 4] [5, 0] : ℚ) : ℝ) /
        (Real.sqrt ((sqMagnitude [(3 : ℚ), 4] : ℚ) : ℝ) *
         Real.sqrt ((sqMagnitude [(5 : ℚ), 0] : ℚ) : ℝ)) ∧
      -1 ≤ s.val ∧ s.val ≤ 1 :=
  C8_cosine_similarity_range [3, 4] [5, 0] (by decide) (by decide) (by decide)

/-- Claim C8 (corrected), counterexample: against the stored zero vector `[0,0]`
the computed similarity is `0/0 = NaN` — no real number at all (`valJS = none`),
so it does not lie in `[-1, 1]`; the claim's "including when a stored or query
vector has zero magnitude" fails. -/
theorem C8_counterexample :
    Except.map SimScore.valJS (cosineSimilarity [(1 : ℚ), 0] [0, 0]) = Except.ok none ∧
    ¬ ∃ x : ℝ, Except.map SimScore.valJS (cosineSimilarity [(1 : ℚ), 0] [0, 0]) =
        Except.ok (some x) ∧ -1 ≤ x ∧ x ≤ 1 := by
  have hcos : cosineSimilarity [(1 : ℚ), 0] [0, 0] =
      Except.ok { qa := [1, 0], qb := [0, 0] } := by
    simp [cosineSimilarity]
  have h1 : Except.map SimScore.valJS (cosineSimilarity [(1 : ℚ), 0] [0, 0]) =
      Except.ok none := by
    rw [hcos]
    show Except.ok (SimScore.valJS { qa := [1, 0], qb := [0, 0] }) = Except.ok none
    rw [SimScore.valJS, if_pos]
    show sqMagnitude [(1 : ℚ), 0] * sqMagnitude [0, 0] = 0
    norm_num [sqMagnitude]
  refine ⟨h1, ?_⟩
  rintro ⟨x, hx, _⟩
  rw [h1] at hx
  cases hx

end CodePlanner
